import Mathlib

/-!
Shallow embedding of the hierarchical request-collection engine of the
`restui` terminal HTTP client (`src/storage/collection.rs`,
`src/storage/request.rs`, and the collection/selection handling in
`src/app.rs`), together with proofs settling the frozen claims about it.

Rust `usize` values are embedded as `Nat`; the only place overflow
semantics matter is the `usize::MAX` sentinel for "collection header
selected", which is embedded as the literal `2 ^ 64 - 1`, and Rust's
`saturating_sub`, which coincides with truncated `Nat` subtraction.
UUID generation (a fresh random string) is embedded by passing the
fresh id as an explicit argument.  Disk writes are embedded as a log of
the collection indices passed to `save_collection`.
-/

namespace Restui

/-- HTTP methods, from `HttpMethod` in `src/storage/request.rs`. -/
inductive HttpMethod where
  | get
  | post
  | put
  | patch
  | delete
deriving DecidableEq, Repr

/-- Key-value pair for headers and query params, from `KeyValue` in
`src/storage/request.rs`. -/
structure KeyValue where
  key : String
  value : String
  enabled : Bool
deriving DecidableEq, Repr

/-- Authentication type, from `AuthType` in `src/storage/request.rs`. -/
inductive AuthType where
  | none
  | bearer
  | basic
  | apiKey
deriving DecidableEq, Repr

/-- Authentication configuration, from `AuthConfig` in
`src/storage/request.rs`. -/
structure AuthConfig where
  auth_type : AuthType
  bearer_token : String
  basic_username : String
  basic_password : String
  api_key_name : String
  api_key_value : String
  api_key_location : String
deriving DecidableEq, Repr

/-- An API request, from `ApiRequest` in `src/storage/request.rs`. -/
structure ApiRequest where
  id : String
  name : String
  method : HttpMethod
  url : String
  headers : List KeyValue
  query_params : List KeyValue
  body : String
  auth : AuthConfig
deriving DecidableEq, Repr

/-- An item in a collection, from `CollectionItem` in
`src/storage/collection.rs`: either a request (leaf) or a folder owning
an ordered list of child items plus an expansion flag. -/
inductive CollectionItem where
  | request (req : ApiRequest)
  | folder (id : String) (name : String) (items : List CollectionItem)
      (expanded : Bool)

mutual

/-- Boolean structural equality on items (deriving cannot handle the
nested `List`); proved equivalent to `=` below. -/
def itemEqb : CollectionItem → CollectionItem → Bool
  | .request r1, .request r2 => decide (r1 = r2)
  | .folder i1 n1 its1 e1, .folder i2 n2 its2 e2 =>
    decide (i1 = i2) && decide (n1 = n2) && itemListEqb its1 its2 &&
      decide (e1 = e2)
  | _, _ => false

/-- Boolean structural equality on item lists. -/
def itemListEqb : List CollectionItem → List CollectionItem → Bool
  | [], [] => true
  | a :: as, b :: bs => itemEqb a b && itemListEqb as bs
  | _, _ => false

end

mutual

theorem itemEqb_iff : ∀ a b : CollectionItem, itemEqb a b = true ↔ a = b
  | .request r1, .request r2 => by
    simp [itemEqb]
  | .request _, .folder _ _ _ _ => by
    simp [itemEqb]
  | .folder _ _ _ _, .request _ => by
    simp [itemEqb]
  | .folder i1 n1 its1 e1, .folder i2 n2 its2 e2 => by
    simp [itemEqb, itemListEqb_iff its1 its2, and_assoc]

theorem itemListEqb_iff :
    ∀ as bs : List CollectionItem, itemListEqb as bs = true ↔ as = bs
  | [], [] => by simp [itemListEqb]
  | [], _ :: _ => by simp [itemListEqb]
  | _ :: _, [] => by simp [itemListEqb]
  | a :: as, b :: bs => by
    simp [itemListEqb, itemEqb_iff a b, itemListEqb_iff as bs]

end

instance : DecidableEq CollectionItem := fun a b =>
  decidable_of_iff _ (itemEqb_iff a b)

namespace CollectionItem

/-- `CollectionItem::id` from `src/storage/collection.rs`. -/
def idOf : CollectionItem → String
  | .request req => req.id
  | .folder id _ _ _ => id

/-- `CollectionItem::name` from `src/storage/collection.rs`. -/
def nameOf : CollectionItem → String
  | .request req => req.name
  | .folder _ name _ _ => name

/-- `CollectionItem::is_folder` from `src/storage/collection.rs`. -/
def is_folder : CollectionItem → Bool
  | .request _ => false
  | .folder _ _ _ _ => true

/-- `CollectionItem::new_folder` from `src/storage/collection.rs`; the
fresh UUID is passed explicitly as `freshId`. -/
def new_folder (freshId : String) (name : String) : CollectionItem :=
  .folder freshId name [] true

end CollectionItem

/-- A collection of API requests, from `Collection` in
`src/storage/collection.rs`.  `expanded` and `source_path` carry
`#[serde(skip)]` in the source: they are transient and never persisted.
Paths are embedded as strings. -/
structure Collection where
  id : String
  name : String
  items : List CollectionItem
  expanded : Bool
  source_path : Option String
deriving DecidableEq

namespace Collection

mutual

/-- The per-item body of `Collection::flatten_items` from
`src/storage/collection.rs`: the source pushes `(depth, item)` onto the
result vector and, when the item is a folder whose `expanded` flag is
true, recurses into its children at `depth + 1` before continuing with
the later siblings; the accumulator is embedded as list concatenation,
so the loop body becomes this item function and the loop itself becomes
`flatten_items`. -/
def flatten_item (item : CollectionItem) (depth : Nat) :
    List (Nat × CollectionItem) :=
  (depth, item) ::
    match item with
    | .folder _ _ sub expanded =>
      if expanded then flatten_items sub (depth + 1) else []
    | .request _ => []

/-- `Collection::flatten_items` from `src/storage/collection.rs`. -/
def flatten_items (items : List CollectionItem) (depth : Nat) :
    List (Nat × CollectionItem) :=
  match items with
  | [] => []
  | item :: rest => flatten_item item depth ++ flatten_items rest depth

end

/-- `Collection::flatten` from `src/storage/collection.rs`. -/
def flatten (c : Collection) : List (Nat × CollectionItem) :=
  flatten_items c.items 0

mutual

/-- `Collection::find_request_in_items` restricted to a single item: a
request matches when its id equals `id` (the `Request(req) if req.id ==
id` arm); a folder is searched recursively (the `Folder { items, .. }`
arm); any other request falls through (the `_ => {}` arm). -/
def find_request_in_item (id : String) : CollectionItem → Option ApiRequest
  | .request req => if req.id = id then some req else none
  | .folder _ _ items _ => find_request_in_items id items

/-- `Collection::find_request_in_items` from `src/storage/collection.rs`:
the `for` loop over `items`, returning the first hit. -/
def find_request_in_items (id : String) :
    List CollectionItem → Option ApiRequest
  | [] => none
  | item :: rest =>
    match find_request_in_item id item with
    | some req => some req
    | none => find_request_in_items id rest

end

/-- The level scan `items.iter().position(|item| item.id() == item_id)`
followed by `items.remove(pos)`, shared by `delete_item_recursive` and
`extract_item_recursive` in `src/storage/collection.rs`: removes the
first item at this level whose id matches, returning it and the
remaining list, or `none` when no item at this level matches. -/
def remove_at_level (item_id : String) :
    List CollectionItem → Option (CollectionItem × List CollectionItem)
  | [] => none
  | item :: rest =>
    if item.idOf = item_id then some (item, rest)
    else
      match remove_at_level item_id rest with
      | some (it, rest') => some (it, item :: rest')
      | none => none

mutual

/-- `Collection::extract_item_recursive` applied inside one item of the
subfolder loop: a request is left untouched; for a folder the source
recurses with `extract_item_recursive(folder_items, ..)`, whose body
(level scan, then subfolder loop) is inlined here.  When the recursive
call finds nothing the source has not mutated the folder, so the
original children are kept. -/
def extract_in_item (item_id : String) :
    CollectionItem → Option CollectionItem × CollectionItem
  | .request req => (none, .request req)
  | .folder id name items expanded =>
    match remove_at_level item_id items with
    | some (it, items') => (some it, .folder id name items' expanded)
    | none =>
      match extract_in_items item_id items with
      | (some it, items') => (some it, .folder id name items' expanded)
      | (none, _) => (none, .folder id name items expanded)

/-- The subfolder `for` loop of `Collection::extract_item_recursive`:
tries each item in order, stopping at the first successful extraction;
items the loop passes over are unchanged. -/
def extract_in_items (item_id : String) :
    List CollectionItem → Option CollectionItem × List CollectionItem
  | [] => (none, [])
  | item :: rest =>
    match extract_in_item item_id item with
    | (some it, item') => (some it, item' :: rest)
    | (none, _) =>
      match extract_in_items item_id rest with
      | (r, rest') => (r, item :: rest')

end

/-- `Collection::extract_item_recursive` from
`src/storage/collection.rs`: first the level scan, then the subfolder
loop. -/
def extract_item_recursive (items : List CollectionItem) (item_id : String) :
    Option CollectionItem × List CollectionItem :=
  match remove_at_level item_id items with
  | some (it, items') => (some it, items')
  | none => extract_in_items item_id items

/-- `Collection::delete_item_recursive` from `src/storage/collection.rs`
has exactly the body of `extract_item_recursive` with the removed item
discarded and a `bool` returned instead. -/
def delete_item_recursive (items : List CollectionItem) (item_id : String) :
    Bool × List CollectionItem :=
  match extract_item_recursive items item_id with
  | (some _, items') => (true, items')
  | (none, items') => (false, items')

mutual

/-- The loop body shared verbatim (modulo the pushed value `x`) by
`Collection::add_request_to_folder`, `Collection::add_folder_to_parent`
and `Collection::insert_item_to_folder` in `src/storage/collection.rs`,
applied to one item: a request never matches; a folder whose id equals
`folder_id` gets `x` pushed onto its children; otherwise the source
recurses into the folder's children and, when that fails, leaves them
unchanged. -/
def push_into_item (x : CollectionItem) (folder_id : String) :
    CollectionItem → Bool × CollectionItem
  | .request req => (false, .request req)
  | .folder id name items expanded =>
    if id = folder_id then (true, .folder id name (items ++ [x]) expanded)
    else
      match push_into_items x folder_id items with
      | (true, items') => (true, .folder id name items' expanded)
      | (false, _) => (false, .folder id name items expanded)

/-- The `for` loop of `add_request_to_folder` / `add_folder_to_parent` /
`insert_item_to_folder`: tries each item in order, stopping at the
first success. -/
def push_into_items (x : CollectionItem) (folder_id : String) :
    List CollectionItem → Bool × List CollectionItem
  | [] => (false, [])
  | item :: rest =>
    match push_into_item x folder_id item with
    | (true, item') => (true, item' :: rest)
    | (false, _) =>
      match push_into_items x folder_id rest with
      | (b, rest') => (b, item :: rest')

end

mutual

/-- `App::find_parent_folder_recursive` from `src/app.rs`, applied to
one item: non-folders are skipped; for a folder the source first scans
the folder's direct children for `item_id` and returns the folder's own
id on a hit, then recurses into the children. -/
def find_parent_in_item (item_id : String) : CollectionItem → Option String
  | .request _ => none
  | .folder id _ items _ =>
    if items.any (fun child => child.idOf = item_id) then some id
    else find_parent_in_items item_id items

/-- The `for` loop of `App::find_parent_folder_recursive`. -/
def find_parent_in_items (item_id : String) :
    List CollectionItem → Option String
  | [] => none
  | item :: rest =>
    match find_parent_in_item item_id item with
    | some id => some id
    | none => find_parent_in_items item_id rest

end

/-- `App::find_parent_folder_recursive` from `src/app.rs`. -/
def find_parent_folder_recursive (items : List CollectionItem)
    (item_id : String) : Option String :=
  find_parent_in_items item_id items

/-- `Collection::find_request` from `src/storage/collection.rs`. -/
def find_request (c : Collection) (id : String) : Option ApiRequest :=
  find_request_in_items id c.items

/-- `Collection::delete_item` from `src/storage/collection.rs`; the
in-place mutation is embedded by returning the updated collection next
to the `bool` result. -/
def delete_item (c : Collection) (item_id : String) : Bool × Collection :=
  match delete_item_recursive c.items item_id with
  | (b, items') => (b, { c with items := items' })

/-- `Collection::extract_item` from `src/storage/collection.rs`. -/
def extract_item (c : Collection) (item_id : String) :
    Option CollectionItem × Collection :=
  match extract_item_recursive c.items item_id with
  | (r, items') => (r, { c with items := items' })

/-- `Collection::insert_item` from `src/storage/collection.rs`: `None`
pushes at root; `Some id` dispatches to `insert_item_to_folder`, whose
loop is `push_into_items`. -/
def insert_item (c : Collection) (item : CollectionItem)
    (folder_id : Option String) : Bool × Collection :=
  match folder_id with
  | none => (true, { c with items := c.items ++ [item] })
  | some id =>
    match push_into_items item id c.items with
    | (b, items') => (b, { c with items := items' })

/-- `Collection::add_request_to` from `src/storage/collection.rs`:
`None` pushes the request at root; `Some id` dispatches to
`add_request_to_folder`, whose loop is `push_into_items`. -/
def add_request_to (c : Collection) (request : ApiRequest)
    (folder_id : Option String) : Bool × Collection :=
  match folder_id with
  | none => (true, { c with items := c.items ++ [.request request] })
  | some id =>
    match push_into_items (.request request) id c.items with
    | (b, items') => (b, { c with items := items' })

/-- `Collection::add_folder_to` from `src/storage/collection.rs`: the
fresh UUID of the new folder is passed explicitly as `freshId`; `None`
pushes the new folder at root; `Some id` dispatches to
`add_folder_to_parent`, whose loop is `push_into_items`. -/
def add_folder_to (c : Collection) (name : String) (freshId : String)
    (parent_id : Option String) : Bool × Collection :=
  match parent_id with
  | none =>
    (true, { c with items := c.items ++ [CollectionItem.new_folder freshId name] })
  | some id =>
    match push_into_items (CollectionItem.new_folder freshId name) id c.items with
    | (b, items') => (b, { c with items := items' })

end Collection

/-! ## Application state (`src/app.rs`)

Only the fields of `App` that the collection/selection operations read
or write are embedded: the collection list, the selection indices, the
pending move, the status/error messages, and — standing in for the
synchronous disk writes of `save_collection` — a log of the collection
indices saved.  The remaining `App` fields (HTTP client, text editing,
history, theming, …) never interact with these operations. -/

/-- `usize::MAX`, the sentinel meaning "the collection header is
selected" (`App::is_collection_header_selected` in `src/app.rs`). -/
def USIZE_MAX : Nat := 2 ^ 64 - 1

/-- `ItemType` from `src/app.rs`. -/
inductive ItemType where
  | collection
  | folder
  | request
deriving DecidableEq

/-- `PendingMove` from `src/app.rs`. -/
structure PendingMove where
  item_id : String
  item_type : ItemType
  item_name : String
  source_collection_index : Nat
deriving DecidableEq

/-- The embedded slice of `App` from `src/app.rs`.  `saved_writes` logs
the indices passed to `save_collection` (each entry is one disk write of
a collection file). -/
structure App where
  collections : List Collection
  selected_collection : Nat
  selected_item : Nat
  pending_move : Option PendingMove
  status_message : Option String
  error_message : Option String
  saved_writes : List Nat
deriving DecidableEq

namespace App

/-- `App::is_collection_header_selected` from `src/app.rs`. -/
def is_collection_header_selected (s : App) : Bool :=
  s.selected_item = USIZE_MAX

/-- `App::save_collection` from `src/app.rs`: looks up the collection by
index and, when present, writes its file to disk; the write is embedded
as appending the index to the `saved_writes` log (I/O errors are only
logged by the source and change no state). -/
def save_collection (s : App) (index : Nat) : App :=
  match s.collections.get? index with
  | some _ => { s with saved_writes := s.saved_writes ++ [index] }
  | none => s

/-- `App::get_visible_items_count` from `src/app.rs`. -/
def get_visible_items_count (s : App) : Nat :=
  match s.collections.get? s.selected_collection with
  | some c => if c.expanded then c.flatten.length else 0
  | none => 0

/-- `App::get_destination_folder_id` from `src/app.rs`. -/
def get_destination_folder_id (s : App) : Option String :=
  match s.collections.get? s.selected_collection with
  | none => none
  | some collection =>
    if s.is_collection_header_selected then none
    else
      match collection.flatten.get? s.selected_item with
      | none => none
      | some (_, item) =>
        if item.is_folder then some item.idOf
        else Collection.find_parent_folder_recursive collection.items item.idOf

/-- `App::execute_pending_move` from `src/app.rs`.  The source mutates
`self` sequentially; here each branch returns the state explicitly, so
`pending_move.take()` becomes `pending_move := none` on every branch,
`dest_collection_index` is `s.selected_collection`, and
`dest_folder_id`/`source_folder_id` are computed from the original
collections, exactly as in the source where both are resolved before
extraction.  When insertion fails the extracted item is dropped, exactly
as in the source, where `insert_item` consumed it by value. -/
def execute_pending_move (s : App) : App :=
  match s.pending_move with
  | none => s
  | some pending =>
    match s.collections.get? pending.source_collection_index with
    | none =>
      { s with pending_move := none,
               error_message := some "Source collection not found" }
    | some source_collection =>
      if pending.source_collection_index = s.selected_collection ∧
          Collection.find_parent_folder_recursive source_collection.items
              pending.item_id =
            s.get_destination_folder_id then
        { s with pending_move := none,
                 status_message := some "Item already in this location" }
      else
        match source_collection.extract_item pending.item_id with
        | (none, _) =>
          { s with pending_move := none,
                   error_message := some "Item not found in source collection" }
        | (some item, source_collection') =>
          match (s.collections.set pending.source_collection_index
              source_collection').get? s.selected_collection with
          | none =>
            { s with pending_move := none,
                     collections :=
                       s.collections.set pending.source_collection_index
                         source_collection',
                     error_message :=
                       some "Destination collection not found" }
          | some dest_collection =>
            match dest_collection.insert_item item
                s.get_destination_folder_id with
            | (true, dest_collection') =>
              if s.selected_collection ≠ pending.source_collection_index then
                (App.save_collection
                  (App.save_collection
                    { s with pending_move := none,
                             collections :=
                               (s.collections.set
                                   pending.source_collection_index
                                   source_collection').set
                                 s.selected_collection dest_collection',
                             status_message :=
                               some ("Moved: " ++ pending.item_name) }
                    pending.source_collection_index)
                  s.selected_collection)
              else
                App.save_collection
                  { s with pending_move := none,
                           collections :=
                             (s.collections.set pending.source_collection_index
                                 source_collection').set
                               s.selected_collection dest_collection',
                           status_message :=
                             some ("Moved: " ++ pending.item_name) }
                  pending.source_collection_index
            | (false, _) =>
              { s with pending_move := none,
                       collections :=
                         s.collections.set pending.source_collection_index
                           source_collection',
                       error_message :=
                         some "Failed to move item to destination" }

/-- `App::execute_delete` from `src/app.rs`.  The `fs::remove_file` of a
deleted collection's backing file is an external effect outside this
model; all state changes are embedded.  Rust's `saturating_sub(1)` is
`Nat` subtraction. -/
def execute_delete (s : App) (item_type : ItemType) (item_id : String)
    (collection_index : Nat) : App :=
  match item_type with
  | .collection =>
    if collection_index < s.collections.length then
      let name := (s.collections.get? collection_index).elim "" Collection.name
      let s := { s with collections := s.collections.eraseIdx collection_index }
      let s :=
        if s.selected_collection ≥ s.collections.length ∧
            s.collections ≠ [] then
          { s with selected_collection := s.collections.length - 1 }
        else s
      { s with selected_item := USIZE_MAX,
               status_message := some ("Deleted collection: " ++ name) }
    else s
  | .folder | .request =>
    match s.collections.get? collection_index with
    | none => s
    | some collection =>
      let cols :=
        s.collections.set collection_index (collection.delete_item item_id).2
      let s := { s with collections := cols }
      let s := s.save_collection collection_index
      let s :=
        if s.selected_item ≠ USIZE_MAX then
          let mx := s.get_visible_items_count - 1
          if s.selected_item > mx then
            { s with selected_item := if mx = USIZE_MAX then USIZE_MAX else mx }
          else s
        else s
      { s with status_message := some "Item deleted" }

/-- `App::navigate_collection_up` from `src/app.rs`. -/
def navigate_collection_up (s : App) : App :=
  if s.collections = [] then s
  else
    match s.collections.get? s.selected_collection with
    | none => s
    | some col =>
      if col.expanded then
        if s.selected_item = USIZE_MAX then
          if 0 < s.selected_collection then
            let s := { s with selected_collection := s.selected_collection - 1 }
            match s.collections.get? s.selected_collection with
            | some prev_col =>
              if prev_col.expanded then
                let count := prev_col.flatten.length
                { s with selected_item :=
                    if 0 < count then count - 1 else USIZE_MAX }
              else { s with selected_item := USIZE_MAX }
            | none => s
          else s
        else if s.selected_item = 0 then
          { s with selected_item := USIZE_MAX }
        else
          { s with selected_item := s.selected_item - 1 }
      else
        if 0 < s.selected_collection then
          let s := { s with selected_collection := s.selected_collection - 1 }
          match s.collections.get? s.selected_collection with
          | some prev_col =>
            if prev_col.expanded then
              let count := prev_col.flatten.length
              { s with selected_item :=
                  if 0 < count then count - 1 else USIZE_MAX }
            else { s with selected_item := USIZE_MAX }
          | none => s
        else s

/-- `App::navigate_collection_down` from `src/app.rs`.  Rust's
`item_count.saturating_sub(1)` is `Nat` subtraction. -/
def navigate_collection_down (s : App) : App :=
  if s.collections = [] then s
  else
    match s.collections.get? s.selected_collection with
    | none => s
    | some col =>
      if col.expanded then
        let item_count := col.flatten.length
        if s.selected_item = USIZE_MAX then
          if 0 < item_count then { s with selected_item := 0 }
          else if s.selected_collection < s.collections.length - 1 then
            { s with selected_collection := s.selected_collection + 1,
                     selected_item := USIZE_MAX }
          else s
        else if s.selected_item < item_count - 1 then
          { s with selected_item := s.selected_item + 1 }
        else if s.selected_collection < s.collections.length - 1 then
          { s with selected_collection := s.selected_collection + 1,
                   selected_item := USIZE_MAX }
        else s
      else
        if s.selected_collection < s.collections.length - 1 then
          { s with selected_collection := s.selected_collection + 1,
                   selected_item := USIZE_MAX }
        else s

end App

/-! ## Derived notions used to state the claims -/

mutual

/-- Number of tree nodes (requests and folders) in one item. -/
def count_item : CollectionItem → Nat
  | .request _ => 1
  | .folder _ _ items _ => 1 + count_items items

/-- Number of tree nodes in an item list. -/
def count_items : List CollectionItem → Nat
  | [] => 0
  | it :: rest => count_item it + count_items rest

end

mutual

/-- All ids occurring in one item (its own id and, for a folder, every
id in its subtree). -/
def ids_item : CollectionItem → List String
  | .request req => [req.id]
  | .folder id _ items _ => id :: ids_items items

/-- All ids occurring in an item list. -/
def ids_items : List CollectionItem → List String
  | [] => []
  | it :: rest => ids_item it ++ ids_items rest

end

mutual

/-- Whether a folder with id `fid` occurs anywhere in the subtree of one
item (the item itself included). -/
def has_folder (fid : String) : CollectionItem → Bool
  | .request _ => false
  | .folder id _ items _ => id = fid || has_folder_in fid items

/-- Whether a folder with id `fid` occurs anywhere in an item list. -/
def has_folder_in (fid : String) : List CollectionItem → Bool
  | [] => false
  | it :: rest => has_folder fid it || has_folder_in fid rest

end

/-- A pair `(d, x)` is a *visible occurrence* in `items` rendered at
base depth `d0`: either `x` is one of the `items` themselves (emitted at
depth `d0`), or `x` is visible inside the children of one of the
`items` that is a folder whose `expanded` flag is `true`, one level
deeper.  Descending is only possible through expanded folders, so no
descendant of a collapsed folder is ever visible. -/
inductive VisibleAt : List CollectionItem → Nat → Nat → CollectionItem → Prop
  | here {items : List CollectionItem} {d0 : Nat} {x : CollectionItem}
      (hx : x ∈ items) : VisibleAt items d0 d0 x
  | inside {items : List CollectionItem} {d0 d : Nat} {x : CollectionItem}
      {id name : String} {sub : List CollectionItem}
      (hf : CollectionItem.folder id name sub true ∈ items)
      (h : VisibleAt sub (d0 + 1) d x) : VisibleAt items d0 d x

namespace Collection

theorem flatten_items_nil (d : Nat) : flatten_items [] d = [] := by
  simp [flatten_items]

theorem flatten_items_cons (it : CollectionItem) (rest : List CollectionItem)
    (d : Nat) :
    flatten_items (it :: rest) d = flatten_item it d ++ flatten_items rest d := by
  simp [flatten_items]

theorem flatten_item_request (req : ApiRequest) (d : Nat) :
    flatten_item (.request req) d = [(d, .request req)] := by
  simp [flatten_item]

theorem flatten_item_folder (id name : String) (sub : List CollectionItem)
    (e : Bool) (d : Nat) :
    flatten_item (.folder id name sub e) d =
      (d, CollectionItem.folder id name sub e) ::
        (if e then flatten_items sub (d + 1) else []) := by
  simp [flatten_item]

theorem mem_flatten_item_self (it : CollectionItem) (d : Nat) :
    (d, it) ∈ flatten_item it d := by
  cases it <;> simp [flatten_item]

/-- Visibility is monotone in the item list. -/
theorem visibleAt_mono {items items' : List CollectionItem} {d0 d : Nat}
    {x : CollectionItem} (hsub : ∀ y ∈ items, y ∈ items')
    (h : VisibleAt items d0 d x) : VisibleAt items' d0 d x := by
  cases h with
  | here hx => exact .here (hsub _ hx)
  | inside hf h => exact .inside (hsub _ hf) h

/-- Every item of the list has its own line in the flattening. -/
theorem self_line_mem_flatten_items :
    ∀ (items : List CollectionItem) (d0 : Nat) (x : CollectionItem),
      x ∈ items → (d0, x) ∈ flatten_items items d0 := by
  intro items d0 x hx
  induction items with
  | nil => cases hx
  | cons it rest ih =>
    rw [flatten_items_cons]
    rcases List.mem_cons.mp hx with h | h
    · subst h
      exact List.mem_append.mpr (Or.inl (mem_flatten_item_self x d0))
    · exact List.mem_append.mpr (Or.inr (ih h))

/-- Lines of an expanded member folder's children block are lines of the
whole flattening. -/
theorem mem_flatten_items_of_mem_sub :
    ∀ (items : List CollectionItem) (d0 : Nat) {id name : String}
      {sub : List CollectionItem} {p : Nat × CollectionItem},
      CollectionItem.folder id name sub true ∈ items →
      p ∈ flatten_items sub (d0 + 1) → p ∈ flatten_items items d0 := by
  intro items d0 id name sub p hf hp
  induction items with
  | nil => cases hf
  | cons it rest ih =>
    rw [flatten_items_cons]
    rcases List.mem_cons.mp hf with h | h
    · subst h
      rw [flatten_item_folder]
      exact List.mem_append.mpr (Or.inl (List.mem_cons_of_mem _ (by simpa using hp)))
    · exact List.mem_append.mpr (Or.inr (ih h))

/-- Every visible occurrence is a line of the flattening (by induction
on the visibility derivation). -/
theorem visibleAt_mem_flatten_items {items : List CollectionItem}
    {d0 d : Nat} {x : CollectionItem} (h : VisibleAt items d0 d x) :
    (d, x) ∈ flatten_items items d0 := by
  induction h with
  | here hx => exact self_line_mem_flatten_items _ _ _ hx
  | inside hf _ ih => exact mem_flatten_items_of_mem_sub _ _ hf ih

/-- Membership in the flattening is exactly visible occurrence. -/
theorem mem_flatten_items_iff :
    ∀ (items : List CollectionItem) (d0 : Nat) (p : Nat × CollectionItem),
      p ∈ flatten_items items d0 ↔ VisibleAt items d0 p.1 p.2
  | [], d0, p => by
    rw [flatten_items_nil]
    constructor
    · intro h; cases h
    · intro h
      cases h with
      | here hx => cases hx
      | inside hf _ => cases hf
  | it :: rest, d0, p => by
    rw [flatten_items_cons]
    constructor
    · intro h
      rcases List.mem_append.mp h with h | h
      · match it, h with
        | .request req, h =>
          rw [flatten_item_request] at h
          rcases List.mem_singleton.mp h with h
          subst h
          exact .here (List.mem_cons_self _ _)
        | .folder id name sub e, h =>
          rw [flatten_item_folder] at h
          rcases List.mem_cons.mp h with h | h
          · subst h
            exact .here (List.mem_cons_self _ _)
          · cases e with
            | false => simp at h
            | true =>
              simp only [if_true] at h
              have hv := (mem_flatten_items_iff sub (d0 + 1) p).mp h
              exact .inside (List.mem_cons_self _ _) hv
      · have hv := (mem_flatten_items_iff rest d0 p).mp h
        exact visibleAt_mono (fun y hy => List.mem_cons_of_mem _ hy) hv
    · intro h
      have := visibleAt_mem_flatten_items h
      rw [flatten_items_cons] at this
      exact this

/-- Wherever the line of an expanded folder occurs in a flattening, it
is immediately followed by that folder's own recursively flattened
children block (at one greater depth), and only after that block can
later siblings follow. -/
theorem flatten_block :
    ∀ (items : List CollectionItem) (d0 : Nat)
      (pre post : List (Nat × CollectionItem)) (d : Nat) (id name : String)
      (sub : List CollectionItem),
      flatten_items items d0 =
        pre ++ (d, CollectionItem.folder id name sub true) :: post →
      post.take (flatten_items sub (d + 1)).length = flatten_items sub (d + 1)
  | [], d0, pre, post, d, id, name, sub => by
    intro h
    rw [flatten_items_nil] at h
    exact absurd h.symm (by simp)
  | .request req :: rest, d0, pre, post, d, id, name, sub => by
    intro h
    rw [flatten_items_cons, flatten_item_request] at h
    match pre, h with
    | [], h => simp at h
    | q :: pre', h =>
      simp only [List.cons_append, List.cons.injEq, List.singleton_append] at h
      exact flatten_block rest d0 pre' post d id name sub h.2
  | .folder fid fname fsub fe :: rest, d0, pre, post, d, id, name, sub => by
    intro h
    rw [flatten_items_cons, flatten_item_folder] at h
    match pre, h with
    | [], h =>
      simp only [List.nil_append, List.cons_append, List.cons.injEq,
        Prod.mk.injEq, CollectionItem.folder.injEq] at h
      obtain ⟨⟨hd, hfid, hfname, hfsub, hfe⟩, h2⟩ := h
      subst hd hfid hfname hfsub hfe
      rw [if_pos rfl] at h2
      rw [← h2]
      exact List.take_left _ _
    | q :: pre', h =>
      simp only [List.cons_append, List.cons.injEq] at h
      obtain ⟨-, h⟩ := h
      rcases List.append_eq_append_iff.mp h with ⟨a', ha1, ha2⟩ | ⟨c', hc1, hc2⟩
      · exact flatten_block rest d0 a' post d id name sub ha2
      · match c', hc2 with
        | [], hc2 =>
          rw [List.nil_append] at hc2
          exact flatten_block rest d0 [] post d id name sub
            (by rw [List.nil_append, hc2])
        | x :: c'', hc2 =>
          rw [List.cons_append, List.cons.injEq] at hc2
          obtain ⟨hx, hpost⟩ := hc2
          subst hx
          have hfe : fe = true := by
            cases fe with
            | true => rfl
            | false => simp at hc1
          subst hfe
          rw [if_pos rfl] at hc1
          have hrec :=
            flatten_block fsub (d0 + 1) pre' c'' d id name sub hc1
          have hlen :
              (flatten_items sub (d + 1)).length ≤ c''.length := by
            have := congrArg List.length hrec
            rw [List.length_take] at this
            omega
          rw [hpost, List.take_append_eq_append_take,
            Nat.sub_eq_zero_of_le hlen, List.take_zero, List.append_nil, hrec]

end Collection

/-- A tiny concrete request used by the closed witness theorems; the
payload fields are defaults. -/
def mkReq (id name : String) : ApiRequest :=
  { id := id, name := name, method := .get, url := "", headers := [],
    query_params := [], body := "",
    auth := { auth_type := .none, bearer_token := "", basic_username := "",
              basic_password := "", api_key_name := "", api_key_value := "",
              api_key_location := "" } }

/-- C3.  Flatten visibility and ordering: a pair `(d, x)` is a line of
`flatten` exactly when `x` is reachable through expanded folders at
depth `d` (so every reachable folder's own line is emitted and no
descendant of a collapsed folder ever is), and wherever the line of an
expanded folder occurs it is immediately followed by that folder's
whole recursively flattened children block at depth `d + 1`, before any
later sibling. -/
theorem C3_flatten_preorder_visibility (c : Collection) :
    (∀ (d : Nat) (x : CollectionItem),
      (d, x) ∈ c.flatten ↔ VisibleAt c.items 0 d x) ∧
    (∀ (pre post : List (Nat × CollectionItem)) (d : Nat) (id name : String)
      (sub : List CollectionItem),
      c.flatten = pre ++ (d, CollectionItem.folder id name sub true) :: post →
      post.take (Collection.flatten_items sub (d + 1)).length =
        Collection.flatten_items sub (d + 1)) := by
  constructor
  · intro d x
    exact Collection.mem_flatten_items_iff c.items 0 (d, x)
  · intro pre post d id name sub h
    exact Collection.flatten_block c.items 0 pre post d id name sub h

/-- Closed witness for C3 on the two-item tree
`[Folder "f" [Request "r1"], Request "r2"]`: its flattening starts with
the folder line, and the theorem yields that the next line is exactly
the folder's one-line children block. -/
theorem C3_flatten_preorder_visibility_witness :
    [(1, CollectionItem.request (mkReq "r1" "R1")),
      (0, CollectionItem.request (mkReq "r2" "R2"))].take
        (Collection.flatten_items [.request (mkReq "r1" "R1")] 1).length =
      Collection.flatten_items [.request (mkReq "r1" "R1")] 1 :=
  (C3_flatten_preorder_visibility
      { id := "c", name := "C",
        items := [.folder "f" "F" [.request (mkReq "r1" "R1")] true,
          .request (mkReq "r2" "R2")],
        expanded := true, source_path := none }).2
    [] [(1, .request (mkReq "r1" "R1")), (0, .request (mkReq "r2" "R2"))]
    0 "f" "F" [.request (mkReq "r1" "R1")] (by decide)

/-- C10.  `Collection::flatten` never reads the collection's own
`expanded` flag: the flattening is identical whichever value that flag
has (only folder `expanded` flags prune the traversal).  Pruning of a
collapsed collection happens separately in the UI layer:
`App::get_visible_items_count` yields `0` when the selected collection's
`expanded` flag is false and the length of its flattening otherwise. -/
theorem C10_flatten_ignores_collection_expanded :
    (∀ (c : Collection) (b : Bool),
      Collection.flatten { c with expanded := b } = c.flatten) ∧
    (∀ (s : App) (c : Collection),
      s.collections.get? s.selected_collection = some c →
      s.get_visible_items_count = if c.expanded then c.flatten.length else 0) := by
  constructor
  · intro c b
    rfl
  · intro s c h
    rw [App.get_visible_items_count, h]

/-- A one-request collection whose own `expanded` flag is false, used by
closed witnesses. -/
def sampleCollapsedCollection : Collection :=
  { id := "c", name := "C", items := [.request (mkReq "r1" "R1")],
    expanded := false, source_path := none }

/-- An application state holding only `sampleCollapsedCollection`, with
the header selected, used by closed witnesses. -/
def sampleCollapsedApp : App :=
  { collections := [sampleCollapsedCollection], selected_collection := 0,
    selected_item := USIZE_MAX, pending_move := none, status_message := none,
    error_message := none, saved_writes := [] }

/-- Closed witness for C10: a collapsed single-collection state has a
visible-item count of `0` even though the collection's flattening has a
line. -/
theorem C10_flatten_ignores_collection_expanded_witness :
    App.get_visible_items_count sampleCollapsedApp =
      if sampleCollapsedCollection.expanded
      then sampleCollapsedCollection.flatten.length else 0 :=
  C10_flatten_ignores_collection_expanded.2 sampleCollapsedApp
    sampleCollapsedCollection (by decide)

/-! ## C7: targeted add -/

mutual

/-- Specification-side counterpart of the shared add/insert loop,
following the claim's words: find the folder with id `fid` (first in
pre-order) and append `x` at the end of its children, yielding the
updated item, or `none` when no such folder exists in this item. -/
def add_spec_item (x : CollectionItem) (fid : String) :
    CollectionItem → Option CollectionItem
  | .request _ => none
  | .folder id name its e =>
    if id = fid then some (.folder id name (its ++ [x]) e)
    else (add_spec_items x fid its).map (fun its' => .folder id name its' e)

/-- Specification-side counterpart over item lists. -/
def add_spec_items (x : CollectionItem) (fid : String) :
    List CollectionItem → Option (List CollectionItem)
  | [] => none
  | it :: rest =>
    match add_spec_item x fid it with
    | some it' => some (it' :: rest)
    | none => (add_spec_items x fid rest).map (fun rest' => it :: rest')

end

namespace Collection

mutual

/-- The source's add/insert loop body refines the specification-side
append on single items. -/
theorem push_into_item_spec (x : CollectionItem) (fid : String) :
    ∀ it : CollectionItem,
      push_into_item x fid it =
        (match add_spec_item x fid it with
          | some it' => (true, it')
          | none => (false, it))
  | .request req => by
    simp [push_into_item, add_spec_item]
  | .folder id name its e => by
    rw [push_into_item, add_spec_item]
    by_cases hid : id = fid
    · simp [hid]
    · rw [if_neg hid, if_neg hid, push_into_items_spec x fid its]
      cases add_spec_items x fid its <;> simp

/-- The source's add/insert loop refines the specification-side append
on item lists. -/
theorem push_into_items_spec (x : CollectionItem) (fid : String) :
    ∀ items : List CollectionItem,
      push_into_items x fid items =
        (match add_spec_items x fid items with
          | some items' => (true, items')
          | none => (false, items))
  | [] => by
    simp [push_into_items, add_spec_items]
  | it :: rest => by
    rw [push_into_items, add_spec_items, push_into_item_spec x fid it]
    cases add_spec_item x fid it with
    | some it' => simp
    | none =>
      rw [push_into_items_spec x fid rest]
      cases add_spec_items x fid rest <;> simp

end

mutual

/-- The specification-side append succeeds on an item exactly when a
folder with the target id occurs in it. -/
theorem add_spec_item_isSome (x : CollectionItem) (fid : String) :
    ∀ it : CollectionItem,
      (add_spec_item x fid it).isSome = has_folder fid it
  | .request req => by
    simp [add_spec_item, has_folder]
  | .folder id name its e => by
    rw [add_spec_item, has_folder]
    by_cases hid : id = fid
    · simp [hid]
    · rw [if_neg hid]
      have hdec : decide (id = fid) = false := by simp [hid]
      rw [hdec, Bool.false_or, ← add_spec_items_isSome x fid its]
      cases add_spec_items x fid its <;> simp

/-- The specification-side append succeeds on a list exactly when a
folder with the target id occurs in it. -/
theorem add_spec_items_isSome (x : CollectionItem) (fid : String) :
    ∀ items : List CollectionItem,
      (add_spec_items x fid items).isSome = has_folder_in fid items
  | [] => by
    simp [add_spec_items, has_folder_in]
  | it :: rest => by
    rw [add_spec_items, has_folder_in, ← add_spec_item_isSome x fid it,
      ← add_spec_items_isSome x fid rest]
    cases add_spec_item x fid it with
    | some it' => simp
    | none =>
      cases add_spec_items x fid rest <;> simp

end

theorem push_into_items_fst (x : CollectionItem) (fid : String)
    (items : List CollectionItem) :
    (push_into_items x fid items).1 = has_folder_in fid items := by
  rw [push_into_items_spec, ← add_spec_items_isSome x fid items]
  cases add_spec_items x fid items <;> simp

theorem push_into_items_of_no_folder (x : CollectionItem) (fid : String)
    (items : List CollectionItem) (h : has_folder_in fid items = false) :
    (push_into_items x fid items).2 = items := by
  rw [push_into_items_spec]
  have hs : (add_spec_items x fid items).isSome = false := by
    rw [add_spec_items_isSome, h]
  cases hval : add_spec_items x fid items with
  | some l => rw [hval] at hs; simp at hs
  | none => simp

end Collection

/-- C7.  Targeted add: with `None` parent, `add_request_to` and
`add_folder_to` append the new item at the end of the collection's root
items and return `true`; with `Some fid` they return `true` exactly when
a folder with id `fid` exists somewhere in the tree, leave the tree
unchanged when they return `false`, and on success produce exactly the
tree in which the new item is appended at the end of that folder's
children (the specification-side `add_spec_items`). -/
theorem C7_targeted_add (c : Collection) (r : ApiRequest)
    (name freshId : String) :
    (c.add_request_to r none =
      (true, { c with items := c.items ++ [.request r] })) ∧
    (c.add_folder_to name freshId none =
      (true, { c with items := c.items ++ [CollectionItem.new_folder freshId name] })) ∧
    (∀ fid : String,
      (c.add_request_to r (some fid)).1 = has_folder_in fid c.items ∧
      (c.add_folder_to name freshId (some fid)).1 = has_folder_in fid c.items) ∧
    (∀ fid : String, has_folder_in fid c.items = false →
      (c.add_request_to r (some fid)).2 = c ∧
      (c.add_folder_to name freshId (some fid)).2 = c) ∧
    (∀ fid : String, ∀ items' : List CollectionItem,
      add_spec_items (.request r) fid c.items = some items' →
      c.add_request_to r (some fid) = (true, { c with items := items' })) ∧
    (∀ fid : String, ∀ items' : List CollectionItem,
      add_spec_items (CollectionItem.new_folder freshId name) fid c.items =
        some items' →
      c.add_folder_to name freshId (some fid) = (true, { c with items := items' })) := by
  refine ⟨rfl, rfl, ?_, ?_, ?_, ?_⟩
  · intro fid
    constructor
    · rw [Collection.add_request_to]
      rw [← Collection.push_into_items_fst (.request r) fid c.items]
    · rw [Collection.add_folder_to]
      rw [← Collection.push_into_items_fst (CollectionItem.new_folder freshId name)
        fid c.items]
  · intro fid h
    constructor
    · rw [Collection.add_request_to]
      have := Collection.push_into_items_of_no_folder (.request r) fid c.items h
      cases hp : Collection.push_into_items (.request r) fid c.items with
      | mk b items' =>
        rw [hp] at this
        simp only at this
        subst this
        rfl
    · rw [Collection.add_folder_to]
      have := Collection.push_into_items_of_no_folder
        (CollectionItem.new_folder freshId name) fid c.items h
      cases hp : Collection.push_into_items (CollectionItem.new_folder freshId name)
        fid c.items with
      | mk b items' =>
        rw [hp] at this
        simp only at this
        subst this
        rfl
  · intro fid items' h
    rw [Collection.add_request_to, Collection.push_into_items_spec, h]
  · intro fid items' h
    rw [Collection.add_folder_to, Collection.push_into_items_spec, h]

/-- Closed witness for C7 on a collection with one root folder `"f"`:
adding a request under `"f"` succeeds and appends it to the folder's
children, and adding under a missing folder id `"zz"` fails and leaves
the collection unchanged. -/
theorem C7_targeted_add_witness :
    (Collection.add_request_to
        { id := "c", name := "C", items := [.folder "f" "F" [] true],
          expanded := true, source_path := none }
        (mkReq "r9" "R9") (some "f")).1 = has_folder_in "f"
          [CollectionItem.folder "f" "F" [] true] ∧
    (Collection.add_request_to
        { id := "c", name := "C", items := [.folder "f" "F" [] true],
          expanded := true, source_path := none }
        (mkReq "r9" "R9") (some "zz")).2 =
      { id := "c", name := "C", items := [.folder "f" "F" [] true],
        expanded := true, source_path := none } :=
  ⟨(C7_targeted_add
      { id := "c", name := "C", items := [.folder "f" "F" [] true],
        expanded := true, source_path := none }
      (mkReq "r9" "R9") "N" "id9").2.2.1 "f" |>.1,
    ((C7_targeted_add
      { id := "c", name := "C", items := [.folder "f" "F" [] true],
        expanded := true, source_path := none }
      (mkReq "r9" "R9") "N" "id9").2.2.2.1 "zz" (by decide)).1⟩

/-! ## C6: delete-then-find and cascade -/

namespace Collection

theorem remove_at_level_spec (item_id : String) :
    ∀ (items : List CollectionItem) (it : CollectionItem)
      (rest' : List CollectionItem),
      remove_at_level item_id items = some (it, rest') →
      it.idOf = item_id ∧
        List.Perm (ids_items items) (ids_item it ++ ids_items rest') := by
  intro items
  induction items with
  | nil => intro it rest' h; simp [remove_at_level] at h
  | cons x rest ih =>
    intro it rest' h
    rw [remove_at_level] at h
    by_cases hx : x.idOf = item_id
    · rw [if_pos hx] at h
      simp only [Option.some.injEq, Prod.mk.injEq] at h
      obtain ⟨hit, hrest⟩ := h
      subst hit hrest
      refine ⟨hx, ?_⟩
      simp only [ids_items]
      exact List.Perm.refl _
    · rw [if_neg hx] at h
      cases hrec : remove_at_level item_id rest with
      | none => rw [hrec] at h; cases h
      | some pr =>
        obtain ⟨it0, rest0⟩ := pr
        rw [hrec] at h
        simp only [Option.some.injEq, Prod.mk.injEq] at h
        obtain ⟨hit, hrest⟩ := h
        obtain ⟨hid, hperm⟩ := ih it0 rest0 hrec
        subst hit
        subst hrest
        refine ⟨hid, ?_⟩
        simp only [ids_items]
        refine (hperm.append_left (ids_item x)).trans ?_
        rw [← List.append_assoc, ← List.append_assoc]
        exact List.perm_append_comm.append_right _

mutual

/-- A successful extraction inside one item returns the item with the
searched id, and splits the ids of the original into the ids of the
extracted subtree plus the ids of what remains (up to permutation). -/
theorem extract_in_item_spec (item_id : String) :
    ∀ (x it x' : CollectionItem),
      extract_in_item item_id x = (some it, x') →
      it.idOf = item_id ∧
        List.Perm (ids_item x) (ids_item it ++ ids_item x')
  | .request req, it, x' => by
    intro h
    simp [extract_in_item] at h
  | .folder id name its e, it, x' => by
    intro h
    rw [extract_in_item] at h
    cases hrem : remove_at_level item_id its with
    | some pr =>
      obtain ⟨it0, its'⟩ := pr
      rw [hrem] at h
      simp only [Prod.mk.injEq, Option.some.injEq] at h
      obtain ⟨hit, hx'⟩ := h
      subst hit
      subst hx'
      obtain ⟨hid, hperm⟩ := remove_at_level_spec item_id its _ _ hrem
      refine ⟨hid, ?_⟩
      simp only [ids_item]
      exact (hperm.cons id).trans List.perm_middle.symm
    | none =>
      rw [hrem] at h
      cases hsub : extract_in_items item_id its with
      | mk r its2 =>
        rw [hsub] at h
        cases r with
        | some it1 =>
          simp only [Prod.mk.injEq, Option.some.injEq] at h
          obtain ⟨hit, hx'⟩ := h
          subst hit
          subst hx'
          obtain ⟨hid, hperm⟩ := extract_in_items_spec item_id its _ _ hsub
          refine ⟨hid, ?_⟩
          simp only [ids_item]
          exact (hperm.cons id).trans List.perm_middle.symm
        | none =>
          simp only [Prod.mk.injEq] at h
          exact absurd h.1 (by simp)

/-- A successful extraction in the subfolder loop returns the item with
the searched id and splits the ids up to permutation. -/
theorem extract_in_items_spec (item_id : String) :
    ∀ (items : List CollectionItem) (it : CollectionItem)
      (items' : List CollectionItem),
      extract_in_items item_id items = (some it, items') →
      it.idOf = item_id ∧
        List.Perm (ids_items items) (ids_item it ++ ids_items items')
  | [], it, items' => by
    intro h
    simp [extract_in_items] at h
  | x :: rest, it, items' => by
    intro h
    rw [extract_in_items] at h
    cases hx : extract_in_item item_id x with
    | mk rx x2 =>
      rw [hx] at h
      cases rx with
      | some it1 =>
        simp only [Prod.mk.injEq, Option.some.injEq] at h
        obtain ⟨hit, hrest⟩ := h
        subst hit
        subst hrest
        obtain ⟨hid, hperm⟩ := extract_in_item_spec item_id x _ _ hx
        refine ⟨hid, ?_⟩
        simp only [ids_items]
        refine (hperm.append_right (ids_items rest)).trans ?_
        rw [List.append_assoc]
      | none =>
        cases hrec : extract_in_items item_id rest with
        | mk r2 rest2 =>
          rw [hrec] at h
          simp only [Prod.mk.injEq] at h
          obtain ⟨hr2, hrest⟩ := h
          subst hr2
          subst hrest
          obtain ⟨hid, hperm⟩ := extract_in_items_spec item_id rest _ _ hrec
          refine ⟨hid, ?_⟩
          simp only [ids_items]
          refine (hperm.append_left (ids_item x)).trans ?_
          rw [← List.append_assoc, ← List.append_assoc]
          exact List.perm_append_comm.append_right _

end

/-- `extract_item_recursive` specification: a successful extraction
returns the item with the searched id, and the multiset of ids of the
original tree is the ids of the extracted subtree plus those of the
remaining tree. -/
theorem extract_item_recursive_spec (items : List CollectionItem)
    (item_id : String) (it : CollectionItem) (items' : List CollectionItem)
    (h : extract_item_recursive items item_id = (some it, items')) :
    it.idOf = item_id ∧
      List.Perm (ids_items items) (ids_item it ++ ids_items items') := by
  rw [extract_item_recursive] at h
  cases hrem : remove_at_level item_id items with
  | some pr =>
    obtain ⟨it0, rest'⟩ := pr
    rw [hrem] at h
    simp only [Prod.mk.injEq, Option.some.injEq] at h
    obtain ⟨hit, hrest⟩ := h
    subst hit
    subst hrest
    exact remove_at_level_spec item_id items _ _ hrem
  | none =>
    rw [hrem] at h
    exact extract_in_items_spec item_id items _ _ h

mutual

/-- A failed extraction inside one item leaves it unchanged. -/
theorem extract_in_item_none (item_id : String) :
    ∀ (x x' : CollectionItem),
      extract_in_item item_id x = (none, x') → x' = x
  | .request req, x' => by
    intro h
    simp only [extract_in_item, Prod.mk.injEq] at h
    exact h.2.symm
  | .folder id name its e, x' => by
    intro h
    rw [extract_in_item] at h
    cases hrem : remove_at_level item_id its with
    | some pr =>
      obtain ⟨it0, its'⟩ := pr
      rw [hrem] at h
      simp at h
    | none =>
      rw [hrem] at h
      cases hsub : extract_in_items item_id its with
      | mk r its2 =>
        rw [hsub] at h
        cases r with
        | some it1 => simp at h
        | none =>
          simp only [Prod.mk.injEq] at h
          exact h.2.symm

/-- A failed extraction in the subfolder loop leaves the list
unchanged. -/
theorem extract_in_items_none (item_id : String) :
    ∀ (items items' : List CollectionItem),
      extract_in_items item_id items = (none, items') → items' = items
  | [], items' => by
    intro h
    simp only [extract_in_items, Prod.mk.injEq] at h
    exact h.2.symm
  | x :: rest, items' => by
    intro h
    rw [extract_in_items] at h
    cases hx : extract_in_item item_id x with
    | mk rx x2 =>
      rw [hx] at h
      cases rx with
      | some it1 => simp at h
      | none =>
        cases hrec : extract_in_items item_id rest with
        | mk r2 rest2 =>
          rw [hrec] at h
          simp only [Prod.mk.injEq] at h
          obtain ⟨hr2, hrest⟩ := h
          subst hr2
          rw [← hrest, extract_in_items_none item_id rest rest2 hrec]

end

/-- `remove_at_level` finds nothing when no id at this level matches,
and in particular `remove_at_level` returning `none` is definitive for
this level.  A failed `extract_item_recursive` leaves the list
unchanged. -/
theorem extract_item_recursive_none (items : List CollectionItem)
    (item_id : String) (items' : List CollectionItem)
    (h : extract_item_recursive items item_id = (none, items')) :
    items' = items := by
  rw [extract_item_recursive] at h
  cases hrem : remove_at_level item_id items with
  | some pr =>
    obtain ⟨it0, rest'⟩ := pr
    rw [hrem] at h
    simp at h
  | none =>
    rw [hrem] at h
    exact extract_in_items_none item_id items items' h

mutual

/-- `find_request_in_item` only ever returns a request whose id occurs
in the item's id set: when the searched id is absent, the search
fails. -/
theorem find_request_in_item_none (id : String) :
    ∀ x : CollectionItem,
      id ∉ ids_item x → find_request_in_item id x = none
  | .request req => by
    intro h
    rw [find_request_in_item]
    rw [ids_item] at h
    simp only [List.mem_singleton] at h
    rw [if_neg (fun hc => h hc.symm)]
  | .folder fid name its e => by
    intro h
    rw [find_request_in_item]
    rw [ids_item] at h
    simp only [List.mem_cons] at h
    exact find_request_in_items_none id its (fun hc => h (Or.inr hc))

/-- List version of `find_request_in_item_none`. -/
theorem find_request_in_items_none (id : String) :
    ∀ items : List CollectionItem,
      id ∉ ids_items items → find_request_in_items id items = none
  | [] => by
    intro h
    rw [find_request_in_items]
  | x :: rest => by
    intro h
    rw [find_request_in_items]
    rw [ids_items] at h
    simp only [List.mem_append] at h
    rw [find_request_in_item_none id x (fun hc => h (Or.inl hc))]
    exact find_request_in_items_none id rest (fun hc => h (Or.inr hc))

end

/-- Every item's own id is among its ids. -/
theorem idOf_mem_ids_item (x : CollectionItem) : x.idOf ∈ ids_item x := by
  cases x <;> simp [ids_item, CollectionItem.idOf]

/-- The ids of a member are among the ids of the list. -/
theorem ids_item_subset_of_mem {y : CollectionItem}
    {items : List CollectionItem} (hy : y ∈ items) {j : String}
    (hj : j ∈ ids_item y) : j ∈ ids_items items := by
  induction items with
  | nil => cases hy
  | cons x rest ih =>
    rw [ids_items]
    rcases List.mem_cons.mp hy with h | h
    · subst h
      exact List.mem_append.mpr (Or.inl hj)
    · exact List.mem_append.mpr (Or.inr (ih h))

/-- The id of every visible item occurs in the tree's id set. -/
theorem visibleAt_id_mem {items : List CollectionItem} {d0 d : Nat}
    {x : CollectionItem} (h : VisibleAt items d0 d x) :
    x.idOf ∈ ids_items items := by
  induction h with
  | here hx => exact ids_item_subset_of_mem hx (idOf_mem_ids_item _)
  | inside hf _ ih =>
    refine ids_item_subset_of_mem hf ?_
    rw [ids_item]
    exact List.mem_cons_of_mem _ ih

end Collection

/-- C6.  Delete-then-find and cascade: on a collection whose ids are
pairwise distinct, extracting (hence deleting) the item with id `id`
makes `delete_item` return `true` with the same resulting tree, after
which `find_request id` is `none`, no flatten line carries id `id`, and
— the cascade — every id that was inside the removed subtree (the
removed folder's entire contents included) is gone: `find_request`
returns `none` for it and no flatten line carries it. -/
theorem C6_delete_then_find_cascade (c : Collection) (id : String)
    (hnd : (ids_items c.items).Nodup) (it : CollectionItem) (c' : Collection)
    (hex : c.extract_item id = (some it, c')) :
    c.delete_item id = (true, c') ∧
    c'.find_request id = none ∧
    (∀ p ∈ c'.flatten, p.2.idOf ≠ id) ∧
    (∀ j ∈ ids_item it,
      c'.find_request j = none ∧ ∀ p ∈ c'.flatten, p.2.idOf ≠ j) := by
  rw [Collection.extract_item] at hex
  cases hrec : Collection.extract_item_recursive c.items id with
  | mk r items' =>
    rw [hrec] at hex
    simp only [Prod.mk.injEq] at hex
    obtain ⟨hr, hc'⟩ := hex
    subst hr
    obtain ⟨hid, hperm⟩ := Collection.extract_item_recursive_spec _ _ _ _ hrec
    have hitems' : c'.items = items' := by rw [← hc']
    have hnd' : (ids_item it ++ ids_items items').Nodup := hperm.nodup hnd
    have hdisj : ∀ j ∈ ids_item it, j ∉ ids_items items' := by
      intro j hj hj'
      rcases List.nodup_append.mp hnd' with ⟨-, -, hd⟩
      exact hd hj hj'
    have hmem_id : id ∈ ids_item it := hid ▸ Collection.idOf_mem_ids_item it
    have hgone : ∀ j ∈ ids_item it,
        c'.find_request j = none ∧ ∀ p ∈ c'.flatten, p.2.idOf ≠ j := by
      intro j hj
      constructor
      · rw [Collection.find_request, hitems']
        exact Collection.find_request_in_items_none j items' (hdisj j hj)
      · intro p hp hpj
        rw [Collection.flatten, hitems'] at hp
        have hv := (Collection.mem_flatten_items_iff items' 0 p).mp hp
        have := Collection.visibleAt_id_mem hv
        rw [hpj] at this
        exact hdisj j hj this
    refine ⟨?_, (hgone id hmem_id).1, (hgone id hmem_id).2, hgone⟩
    rw [Collection.delete_item, Collection.delete_item_recursive, hrec, ← hc']

/-- Closed witness for C6: deleting folder `"f"` (which contains request
`"r1"`) from a two-item collection removes the whole subtree, so
`find_request "r1"` on the result is `none`. -/
theorem C6_delete_then_find_cascade_witness :
    Collection.find_request
        { id := "c", name := "C", items := [.request (mkReq "r2" "R2")],
          expanded := true, source_path := none } "r1" = none :=
  ((C6_delete_then_find_cascade
      { id := "c", name := "C",
        items := [.folder "f" "F" [.request (mkReq "r1" "R1")] true,
          .request (mkReq "r2" "R2")],
        expanded := true, source_path := none }
      "f" (by decide)
      (.folder "f" "F" [.request (mkReq "r1" "R1")] true)
      { id := "c", name := "C", items := [.request (mkReq "r2" "R2")],
        expanded := true, source_path := none }
      (by decide)).2.2.2 "r1" (by decide)).1

/-! ## C4: moves preserve the total item count -/

namespace Collection

mutual

/-- The node count of an item is the number of ids in its subtree. -/
theorem count_item_eq_ids_length :
    ∀ x : CollectionItem, count_item x = (ids_item x).length
  | .request req => by
    rw [count_item, ids_item, List.length_singleton]
  | .folder id name its e => by
    rw [count_item, ids_item, List.length_cons,
      count_items_eq_ids_length its, Nat.add_comm]

/-- The node count of a list is the number of ids in it. -/
theorem count_items_eq_ids_length :
    ∀ items : List CollectionItem, count_items items = (ids_items items).length
  | [] => by
    rw [count_items, ids_items, List.length_nil]
  | x :: rest => by
    rw [count_items, ids_items, List.length_append,
      count_item_eq_ids_length x, count_items_eq_ids_length rest]

end

/-- Splitting lemma for counts over list append. -/
theorem count_items_append (a b : List CollectionItem) :
    count_items (a ++ b) = count_items a + count_items b := by
  induction a with
  | nil => rw [List.nil_append, count_items, Nat.zero_add]
  | cons x rest ih =>
    rw [List.cons_append, count_items, count_items, ih, Nat.add_assoc]

/-- A successful extraction splits the node count. -/
theorem count_extract (items : List CollectionItem) (item_id : String)
    (it : CollectionItem) (items' : List CollectionItem)
    (h : extract_item_recursive items item_id = (some it, items')) :
    count_items items = count_item it + count_items items' := by
  obtain ⟨-, hperm⟩ := extract_item_recursive_spec items item_id it items' h
  have := hperm.length_eq
  rw [List.length_append] at this
  rw [count_items_eq_ids_length, count_item_eq_ids_length,
    count_items_eq_ids_length, this]

end Collection

mutual

/-- The specification-side append adds exactly the pushed subtree's
node count on one item. -/
theorem add_spec_item_count (x : CollectionItem) (fid : String) :
    ∀ (it it' : CollectionItem),
      add_spec_item x fid it = some it' →
      count_item it' = count_item it + count_item x
  | .request req, it' => by
    intro h
    simp [add_spec_item] at h
  | .folder id name its e, it' => by
    intro h
    rw [add_spec_item] at h
    by_cases hid : id = fid
    · rw [if_pos hid] at h
      simp only [Option.some.injEq] at h
      subst h
      rw [count_item, count_item, Collection.count_items_append, count_items,
        count_items, Nat.add_zero, Nat.add_assoc]
    · rw [if_neg hid] at h
      cases hrec : add_spec_items x fid its with
      | none => rw [hrec] at h; simp at h
      | some its' =>
        rw [hrec] at h
        simp only [Option.map_some', Option.some.injEq] at h
        subst h
        rw [count_item, count_item, add_spec_items_count x fid its its' hrec,
          Nat.add_assoc]

/-- The specification-side append adds exactly the pushed subtree's
node count on a list. -/
theorem add_spec_items_count (x : CollectionItem) (fid : String) :
    ∀ (items items' : List CollectionItem),
      add_spec_items x fid items = some items' →
      count_items items' = count_items items + count_item x
  | [], items' => by
    intro h
    simp [add_spec_items] at h
  | it :: rest, items' => by
    intro h
    rw [add_spec_items] at h
    cases hit : add_spec_item x fid it with
    | some it' =>
      rw [hit] at h
      simp only [Option.some.injEq] at h
      subst h
      rw [count_items, count_items, add_spec_item_count x fid it it' hit]
      omega
    | none =>
      rw [hit] at h
      cases hrec : add_spec_items x fid rest with
      | none => rw [hrec] at h; simp at h
      | some rest' =>
        rw [hrec] at h
        simp only [Option.map_some', Option.some.injEq] at h
        subst h
        rw [count_items, count_items, add_spec_items_count x fid rest rest' hrec]
        omega

end

/-- A successful targeted insert adds exactly the pushed subtree's node
count. -/
theorem count_push_into_items (x : CollectionItem) (fid : String)
    (items items' : List CollectionItem)
    (h : Collection.push_into_items x fid items = (true, items')) :
    count_items items' = count_items items + count_item x := by
  rw [Collection.push_into_items_spec] at h
  cases hrec : add_spec_items x fid items with
  | none => rw [hrec] at h; simp at h
  | some l =>
    rw [hrec] at h
    simp only [Prod.mk.injEq] at h
    rw [← h.2]
    exact add_spec_items_count x fid items l hrec

/-- Total node count over a list of collections. -/
def total_count (cols : List Collection) : Nat :=
  match cols with
  | [] => 0
  | c :: rest => count_items c.items + total_count rest

/-- Replacing the collection at a valid index exchanges its count in the
total. -/
theorem total_count_set :
    ∀ (cols : List Collection) (i : Nat) (c c' : Collection),
      cols.get? i = some c →
      count_items c.items + total_count (cols.set i c') =
        count_items c'.items + total_count cols
  | [], i, c, c' => by
    intro h
    simp at h
  | x :: rest, 0, c, c' => by
    intro h
    simp only [List.get?_cons_zero, Option.some.injEq] at h
    subst h
    rw [List.set_cons_zero, total_count, total_count]
    omega
  | x :: rest, i + 1, c, c' => by
    intro h
    simp only [List.get?_cons_succ] at h
    rw [List.set_cons_succ, total_count, total_count]
    have := total_count_set rest i c c' h
    omega

/-- The collections list is untouched by a persistence write. -/
theorem App.save_collection_collections (s : App) (i : Nat) :
    (s.save_collection i).collections = s.collections := by
  rw [App.save_collection]
  cases s.collections.get? i <;> rfl

/-- The claim's side condition for C4, traced along the path
`execute_pending_move` takes: it is `true` on every path that never
reaches insertion, and on the insertion path it requires the destination
collection to exist and — when a folder (not the root) is targeted —
a folder with the resolved id to exist in the destination tree as it is
at insertion time (i.e. after extraction). -/
def move_dest_exists_at_insertion (s : App) : Bool :=
  match s.pending_move with
  | none => true
  | some pending =>
    match s.collections.get? pending.source_collection_index with
    | none => true
    | some source_collection =>
      if pending.source_collection_index = s.selected_collection ∧
          Collection.find_parent_folder_recursive source_collection.items
              pending.item_id =
            s.get_destination_folder_id then true
      else
        match source_collection.extract_item pending.item_id with
        | (none, _) => true
        | (some _, source_collection') =>
          match (s.collections.set pending.source_collection_index
              source_collection').get? s.selected_collection with
          | none => false
          | some dest_collection =>
            match s.get_destination_folder_id with
            | none => true
            | some fid => has_folder_in fid dest_collection.items

/-- C4.  A move whose destination folder exists in the destination
collection at insertion time preserves the total number of tree nodes
over all collections, and touches no collection other than the source
and the destination — so the source plus destination count is the same
before and after, no item duplicated, none lost, also when source and
destination are the same collection. -/
theorem C4_move_preserves_total_count (s : App) (p : PendingMove)
    (hp : s.pending_move = some p)
    (hok : move_dest_exists_at_insertion s = true) :
    total_count s.execute_pending_move.collections =
        total_count s.collections ∧
    ∀ j : Nat, j ≠ p.source_collection_index → j ≠ s.selected_collection →
      s.execute_pending_move.collections.get? j = s.collections.get? j := by
  rw [App.execute_pending_move, hp]
  rw [move_dest_exists_at_insertion, hp] at hok
  dsimp only at hok ⊢
  cases hsrc : s.collections.get? p.source_collection_index with
  | none =>
    rw [hsrc] at hok
    exact ⟨rfl, fun j _ _ => rfl⟩
  | some src =>
    rw [hsrc] at hok
    dsimp only at hok ⊢
    by_cases hguard : p.source_collection_index = s.selected_collection ∧
        Collection.find_parent_folder_recursive src.items p.item_id =
          s.get_destination_folder_id
    · rw [if_pos hguard] at hok ⊢
      exact ⟨rfl, fun j _ _ => rfl⟩
    · rw [if_neg hguard] at hok ⊢
      rw [Collection.extract_item] at hok ⊢
      cases hrec : Collection.extract_item_recursive src.items p.item_id with
      | mk r srcItems' =>
        rw [hrec] at hok
        dsimp only at hok ⊢
        cases r with
        | none =>
          exact ⟨rfl, fun j _ _ => rfl⟩
        | some item =>
          dsimp only at hok ⊢
          have hcount_src : count_items src.items =
              count_item item + count_items srcItems' :=
            Collection.count_extract _ _ _ _ hrec
          cases hdest : (s.collections.set p.source_collection_index
              { src with items := srcItems' }).get? s.selected_collection with
          | none =>
            rw [hdest] at hok
            cases hok
          | some dest =>
            rw [hdest] at hok
            dsimp only at hok ⊢
            have htot1 : count_items src.items +
                total_count (s.collections.set p.source_collection_index
                  { src with items := srcItems' }) =
                count_items srcItems' + total_count s.collections := by
              exact total_count_set s.collections p.source_collection_index
                src { src with items := srcItems' } hsrc
            rw [Collection.insert_item.eq_def]
            cases hfid : s.get_destination_folder_id with
            | none =>
              rw [hfid] at hok
              dsimp only at hok ⊢
              have htot2 : count_items dest.items +
                  total_count ((s.collections.set p.source_collection_index
                    { src with items := srcItems' }).set s.selected_collection
                      { dest with items := dest.items ++ [item] }) =
                  count_items (dest.items ++ [item]) +
                    total_count (s.collections.set p.source_collection_index
                      { src with items := srcItems' }) :=
                total_count_set _ s.selected_collection dest
                  { dest with items := dest.items ++ [item] } hdest
              rw [Collection.count_items_append] at htot2
              simp only [count_items] at htot2
              constructor
              · by_cases hne : s.selected_collection ≠ p.source_collection_index
                · rw [if_pos hne, App.save_collection_collections,
                    App.save_collection_collections]
                  dsimp only
                  omega
                · rw [if_neg hne, App.save_collection_collections]
                  dsimp only
                  omega
              · intro j hj1 hj2
                by_cases hne : s.selected_collection ≠ p.source_collection_index
                · rw [if_pos hne, App.save_collection_collections,
                    App.save_collection_collections]
                  dsimp only
                  rw [List.get?_set_ne _ _ (fun h => hj2 h.symm),
                    List.get?_set_ne _ _ (fun h => hj1 h.symm)]
                · rw [if_neg hne, App.save_collection_collections]
                  dsimp only
                  rw [List.get?_set_ne _ _ (fun h => hj2 h.symm),
                    List.get?_set_ne _ _ (fun h => hj1 h.symm)]
            | some fid =>
              rw [hfid] at hok
              dsimp only at hok ⊢
              cases hpush : Collection.push_into_items item fid dest.items with
              | mk b destItems' =>
                have hb : b = true := by
                  have h1 := Collection.push_into_items_fst item fid dest.items
                  rw [hpush] at h1
                  dsimp only at h1
                  exact h1.trans hok
                subst hb
                dsimp only
                have hcount_ins : count_items destItems' =
                    count_items dest.items + count_item item :=
                  count_push_into_items item fid dest.items destItems' hpush
                have htot2 : count_items dest.items +
                    total_count ((s.collections.set p.source_collection_index
                      { src with items := srcItems' }).set s.selected_collection
                        { dest with items := destItems' }) =
                    count_items destItems' +
                      total_count (s.collections.set p.source_collection_index
                        { src with items := srcItems' }) :=
                  total_count_set _ s.selected_collection dest
                    { dest with items := destItems' } hdest
                constructor
                · by_cases hne : s.selected_collection ≠ p.source_collection_index
                  · rw [if_pos hne, App.save_collection_collections,
                      App.save_collection_collections]
                    dsimp only
                    omega
                  · rw [if_neg hne, App.save_collection_collections]
                    dsimp only
                    omega
                · intro j hj1 hj2
                  by_cases hne : s.selected_collection ≠ p.source_collection_index
                  · rw [if_pos hne, App.save_collection_collections,
                      App.save_collection_collections]
                    dsimp only
                    rw [List.get?_set_ne _ _ (fun h => hj2 h.symm),
                      List.get?_set_ne _ _ (fun h => hj1 h.symm)]
                  · rw [if_neg hne, App.save_collection_collections]
                    dsimp only
                    rw [List.get?_set_ne _ _ (fun h => hj2 h.symm),
                      List.get?_set_ne _ _ (fun h => hj1 h.symm)]

/-- Collection `"a"` holding request `"r1"` at root, used by witnesses. -/
def sampleColA : Collection :=
  { id := "a", name := "A", items := [.request (mkReq "r1" "R1")],
    expanded := true, source_path := none }

/-- Collection `"b"` holding empty folder `"g"` at root, used by
witnesses. -/
def sampleColB : Collection :=
  { id := "b", name := "B", items := [.folder "g" "G" [] true],
    expanded := true, source_path := none }

/-- The pending move of request `"r1"` out of collection 0, used by
witnesses. -/
def samplePendingMove : PendingMove :=
  { item_id := "r1", item_type := .request, item_name := "R1",
    source_collection_index := 0 }

/-- A two-collection state with a pending move of request `"r1"` from
collection 0 to folder `"g"` of collection 1 (the selection sits on that
folder's line), used by the C4 witness. -/
def sampleMoveApp : App :=
  { collections := [sampleColA, sampleColB],
    selected_collection := 1, selected_item := 0,
    pending_move := some samplePendingMove,
    status_message := none, error_message := none, saved_writes := [] }

/-- Closed witness for C4: the sample cross-collection move preserves
the total node count. -/
theorem C4_move_preserves_total_count_witness :
    total_count sampleMoveApp.execute_pending_move.collections =
      total_count sampleMoveApp.collections :=
  (C4_move_preserves_total_count sampleMoveApp samplePendingMove
    (by decide) (by decide)).1

/-! ## C5: move no-op guard -/

/-- C5.  No-op guard: when the pending move's source collection index
equals the destination (selected) collection index and the moved item's
current parent folder id equals the resolved destination folder id,
`execute_pending_move` only clears the pending state and sets the
"already in this location" status: the collections are untouched and no
persistence write is logged. -/
theorem C5_move_noop_guard (s : App) (p : PendingMove)
    (hp : s.pending_move = some p) (src : Collection)
    (hsrc : s.collections.get? p.source_collection_index = some src)
    (hidx : p.source_collection_index = s.selected_collection)
    (hfld : Collection.find_parent_folder_recursive src.items p.item_id =
      s.get_destination_folder_id) :
    s.execute_pending_move =
      { s with pending_move := none,
               status_message := some "Item already in this location" } := by
  rw [App.execute_pending_move, hp]
  dsimp only
  rw [hsrc]
  dsimp only
  rw [if_pos ⟨hidx, hfld⟩]

/-- A state in which request `"r1"`'s current location is also the
resolved move destination (the collection header is selected, so the
destination is the root, where `"r1"` already sits). -/
def sampleNoopMoveApp : App :=
  { collections := [sampleColA], selected_collection := 0,
    selected_item := USIZE_MAX, pending_move := some samplePendingMove,
    status_message := none, error_message := none, saved_writes := [] }

/-- Closed witness for C5 on `sampleNoopMoveApp`. -/
theorem C5_move_noop_guard_witness :
    sampleNoopMoveApp.execute_pending_move =
      { sampleNoopMoveApp with
          pending_move := none,
          status_message := some "Item already in this location" } :=
  C5_move_noop_guard sampleNoopMoveApp samplePendingMove (by decide)
    sampleColA (by decide) (by decide) (by decide)

/-! ## C1 and C2: failure atomicity and the selection invariant -/

/-- Collection `"e"` holding folder `"f"` which contains folder `"g"`,
used by the C1 failing input. -/
def sampleColE : Collection :=
  { id := "e", name := "E",
    items := [.folder "f" "F" [.folder "g" "G" [] true] true],
    expanded := true, source_path := none }

/-- Collection `"e"` as it ends up after the failed move: empty. -/
def sampleColEEmpty : Collection :=
  { id := "e", name := "E", items := [], expanded := true,
    source_path := none }

/-- The pending move of folder `"f"` out of collection 0, used by the
C1 failing input. -/
def sampleFolderPendingMove : PendingMove :=
  { item_id := "f", item_type := .folder, item_name := "F",
    source_collection_index := 0 }

/-- A state in which folder `"f"` (containing folder `"g"`) is being
moved into its own child `"g"`: the selection sits on `"g"`'s flatten
line, so the resolved destination folder is `"g"`, which disappears
from the tree the moment `"f"` is extracted. -/
def sampleSelfMoveApp : App :=
  { collections := [sampleColE],
    selected_collection := 0, selected_item := 1,
    pending_move := some sampleFolderPendingMove,
    status_message := none, error_message := none, saved_writes := [] }

/-- C1 fails on the code: moving folder `"f"` into its own descendant
`"g"` passes the no-op guard, extraction succeeds, insertion fails
(`"g"` is no longer in the tree), and the already-extracted subtree is
dropped — after the call the source collection is empty (two nodes
lost) even though only an error message was supposed to change.  No
persistence write occurs, as the claim says, but the tree is *not* as it
was before the call. -/
theorem C1_insert_failure_drops_extracted_item :
    sampleSelfMoveApp.execute_pending_move.error_message =
        some "Failed to move item to destination" ∧
    sampleSelfMoveApp.execute_pending_move.saved_writes = [] ∧
    sampleSelfMoveApp.execute_pending_move.collections =
      [sampleColEEmpty] ∧
    total_count sampleSelfMoveApp.execute_pending_move.collections + 2 =
      total_count sampleSelfMoveApp.collections := by
  refine ⟨?_, ?_, ?_, ?_⟩ <;> decide

/-- Collection `"d"` holding only request `"r1"`, used by the C2
failing input. -/
def sampleColD : Collection :=
  { id := "d", name := "D", items := [.request (mkReq "r1" "R1")],
    expanded := true, source_path := none }

/-- Collection `"d"` after its only request is deleted. -/
def sampleColDEmpty : Collection :=
  { id := "d", name := "D", items := [], expanded := true,
    source_path := none }

/-- A single-collection, single-request state with that request's line
selected, used to exhibit the C2 violation. -/
def sampleSingleApp : App :=
  { collections := [sampleColD],
    selected_collection := 0, selected_item := 0,
    pending_move := none, status_message := none, error_message := none,
    saved_writes := [] }

/-- C2 fails on the code: deleting the only item leaves `selected_item =
0` while the selected collection's flattening is empty, so neither
`selected_item = USIZE_MAX` nor `selected_item <` the flatten length
holds.  (The source's `if max == usize::MAX` arm is dead because
`saturating_sub` never wraps, so the intended reset to the sentinel
never happens.) -/
theorem C2_delete_leaves_dangling_selection :
    (sampleSingleApp.execute_delete .request "r1" 0).selected_item = 0 ∧
    (sampleSingleApp.execute_delete .request "r1" 0).selected_collection = 0 ∧
    (sampleSingleApp.execute_delete .request "r1" 0).collections =
      [sampleColDEmpty] ∧
    Collection.flatten sampleColDEmpty = [] := by
  refine ⟨?_, ?_, ?_, ?_⟩ <;> decide

/-! ## C9: navigation walks the flattened, visibility-pruned sequence

The visible linear sequence the navigation walks is: for each collection
in order, its header line, then - only when the collection is expanded -
its `flatten` lines.  A selection is identified with its index in that
global sequence.  The bound `flatten.length < USIZE_MAX` mirrors the
Rust fact that a `Vec` holds fewer than `usize::MAX` elements, so an
item index never collides with the sentinel. -/

/-- Number of visible item lines a collection contributes below its
header: its flatten length when expanded, `0` when collapsed. -/
def vis_len (c : Collection) : Nat :=
  if c.expanded then c.flatten.length else 0

/-- Number of visible lines (headers plus visible items) contributed by
the first `n` collections. -/
def offset_until (cols : List Collection) : Nat → Nat
  | 0 => 0
  | n + 1 =>
    match cols with
    | [] => 0
    | c :: rest => 1 + vis_len c + offset_until rest n

/-- Total number of visible lines of all collections. -/
def total_vis (cols : List Collection) : Nat :=
  offset_until cols cols.length

/-- Index of the current selection in the global visible sequence: all
lines of earlier collections, plus `0` for the header (sentinel) or
`selected_item + 1` for an item line. -/
def pos_index (s : App) : Nat :=
  offset_until s.collections s.selected_collection +
    (if s.selected_item = USIZE_MAX then 0 else s.selected_item + 1)

/-- The selection denotes an existing visible line: the collection index
is in range and the item index is the sentinel or within the expanded
collection's flattening. -/
def valid_pos (s : App) : Prop :=
  ∃ c, s.collections.get? s.selected_collection = some c ∧
    (s.selected_item = USIZE_MAX ∨
      (c.expanded = true ∧ s.selected_item < c.flatten.length))

theorem offset_until_step :
    ∀ (cols : List Collection) (n : Nat) (c : Collection),
      cols.get? n = some c →
      offset_until cols (n + 1) = offset_until cols n + 1 + vis_len c := by
  intro cols
  induction cols with
  | nil => intro n c h; simp at h
  | cons x rest ih =>
    intro n c h
    cases n with
    | zero =>
      simp only [List.get?_cons_zero, Option.some.injEq] at h
      subst h
      simp only [offset_until]
      omega
    | succ m =>
      simp only [List.get?_cons_succ] at h
      simp only [offset_until, ih m c h]
      omega

theorem offset_until_le_succ :
    ∀ (cols : List Collection) (k : Nat),
      offset_until cols k ≤ offset_until cols (k + 1)
  | [], 0 => by rw [offset_until]; omega
  | [], k + 1 => by rw [offset_until, offset_until]
  | c :: rest, 0 => by rw [offset_until, offset_until]; omega
  | c :: rest, k + 1 => by
    rw [offset_until, offset_until]
    have := offset_until_le_succ rest k
    omega

theorem offset_until_mono (cols : List Collection) {n m : Nat} (h : n ≤ m) :
    offset_until cols n ≤ offset_until cols m := by
  induction m with
  | zero =>
    cases Nat.le_zero.mp h
    omega
  | succ k ih =>
    rcases Nat.lt_or_ge n (k + 1) with hlt | hge
    · exact (ih (Nat.lt_succ_iff.mp hlt)).trans (offset_until_le_succ cols k)
    · have heq : n = k + 1 := Nat.le_antisymm h hge
      subst heq
      omega

/-- The local part of a valid selection's index is at most the selected
collection's visible length, and an item index never is the sentinel. -/
theorem valid_local_le (c : Collection) (sel : Nat)
    (hb : c.flatten.length < USIZE_MAX)
    (hsel : sel = USIZE_MAX ∨ (c.expanded = true ∧ sel < c.flatten.length)) :
    (if sel = USIZE_MAX then 0 else sel + 1) ≤ vis_len c := by
  rcases hsel with hmax | ⟨hexp, hlen⟩
  · rw [if_pos hmax]
    omega
  · have hne : ¬sel = USIZE_MAX := by omega
    rw [if_neg hne, vis_len, if_pos hexp]
    omega

/-- A valid selection's index is strictly below the total number of
visible lines. -/
theorem pos_index_lt_total (s : App)
    (hb : ∀ c ∈ s.collections, c.flatten.length < USIZE_MAX)
    (h : valid_pos s) : pos_index s < total_vis s.collections := by
  obtain ⟨c, hc, hsel⟩ := h
  have hlt : s.selected_collection < s.collections.length :=
    (List.get?_eq_some.mp hc).1
  have hstep := offset_until_step s.collections s.selected_collection c hc
  have hmono := offset_until_mono s.collections (Nat.succ_le_of_lt hlt)
  simp only [Nat.succ_eq_add_one] at hmono
  have hloc := valid_local_le c s.selected_item
    (hb c (List.get?_mem hc)) hsel
  rw [total_vis]
  rw [pos_index]
  omega

/-- The visible-sequence index determines the selection among valid
selections over the same collections. -/
theorem pos_index_injective (t1 t2 : App)
    (hcols : t1.collections = t2.collections)
    (hb : ∀ c ∈ t1.collections, c.flatten.length < USIZE_MAX)
    (h1 : valid_pos t1) (h2 : valid_pos t2)
    (hpos : pos_index t1 = pos_index t2) :
    t1.selected_collection = t2.selected_collection ∧
      t1.selected_item = t2.selected_item := by
  obtain ⟨c1, hc1, hsel1⟩ := h1
  obtain ⟨c2, hc2, hsel2⟩ := h2
  rw [pos_index, pos_index, ← hcols] at hpos
  rw [← hcols] at hc2
  have hloc1 := valid_local_le c1 t1.selected_item
    (hb c1 (List.get?_mem hc1)) hsel1
  have hloc2 := valid_local_le c2 t2.selected_item
    (hb c2 (List.get?_mem hc2)) hsel2
  have hscEq : t1.selected_collection = t2.selected_collection := by
    by_contra hne
    rcases Nat.lt_or_ge t1.selected_collection t2.selected_collection with
      hlt | hge
    · have hstep := offset_until_step t1.collections _ _ hc1
      have hmono := offset_until_mono t1.collections (Nat.succ_le_of_lt hlt)
      simp only [Nat.succ_eq_add_one] at hmono
      omega
    · have hlt2 : t2.selected_collection < t1.selected_collection :=
        Nat.lt_of_le_of_ne hge (fun h => hne h.symm)
      have hstep := offset_until_step t1.collections _ _ hc2
      have hmono := offset_until_mono t1.collections (Nat.succ_le_of_lt hlt2)
      simp only [Nat.succ_eq_add_one] at hmono
      omega
  refine ⟨hscEq, ?_⟩
  rw [hscEq] at hpos
  have hloc : (if t1.selected_item = USIZE_MAX then 0
      else t1.selected_item + 1) =
      (if t2.selected_item = USIZE_MAX then 0 else t2.selected_item + 1) := by
    omega
  by_cases hm1 : t1.selected_item = USIZE_MAX <;>
    by_cases hm2 : t2.selected_item = USIZE_MAX
  · rw [hm1, hm2]
  · rw [if_pos hm1, if_neg hm2] at hloc; omega
  · rw [if_neg hm1, if_pos hm2] at hloc; omega
  · rw [if_neg hm1, if_neg hm2] at hloc; omega

/-- `navigate_collection_up` on a valid selection: at global index `0`
(the first collection's header) it is the identity; anywhere else it
keeps the collections and moves the selection to a valid position whose
global index is exactly one less. -/
theorem navigate_up_spec (s : App)
    (hb : ∀ c ∈ s.collections, c.flatten.length < USIZE_MAX)
    (hv : valid_pos s) :
    (pos_index s = 0 → s.navigate_collection_up = s) ∧
    (0 < pos_index s →
      s.navigate_collection_up.collections = s.collections ∧
      valid_pos s.navigate_collection_up ∧
      pos_index s.navigate_collection_up + 1 = pos_index s) := by
  obtain ⟨c, hc, hsel⟩ := hv
  have hnil : ¬(s.collections = []) := by
    intro h
    rw [h] at hc
    simp at hc
  have hlt : s.selected_collection < s.collections.length :=
    (List.get?_eq_some.mp hc).1
  have hmaxbound := hb c (List.get?_mem hc)
  rw [App.navigate_collection_up, if_neg hnil, hc]
  dsimp only
  cases hexp : c.expanded with
  | true =>
    rw [if_pos rfl]
    by_cases hmax : s.selected_item = USIZE_MAX
    · rw [if_pos hmax]
      by_cases hsc0 : 0 < s.selected_collection
      · rw [if_pos hsc0]
        cases hprev : s.collections.get? (s.selected_collection - 1) with
        | none =>
          exfalso
          have := List.get?_eq_none.mp hprev
          omega
        | some prev =>
          dsimp only
          have hprevmem := hb prev (List.get?_mem hprev)
          have hstep := offset_until_step s.collections _ _ hprev
          have harith : s.selected_collection - 1 + 1 = s.selected_collection := by
            omega
          rw [harith] at hstep
          constructor
          · intro h0
            exfalso
            rw [pos_index, if_pos hmax] at h0
            omega
          · intro hpos
            cases hexp' : prev.expanded with
            | true =>
              rw [if_pos rfl]
              by_cases hcnt : 0 < prev.flatten.length
              · rw [if_pos hcnt]
                refine ⟨rfl, ⟨prev, by dsimp only; exact hprev, ?_⟩, ?_⟩
                · right
                  exact ⟨hexp', by dsimp only; omega⟩
                · rw [pos_index, pos_index, if_pos hmax]
                  dsimp only
                  rw [if_neg (by omega : ¬prev.flatten.length - 1 = USIZE_MAX)]
                  have hvl : vis_len prev = prev.flatten.length := by
                    rw [vis_len, if_pos hexp']
                  omega
              · rw [if_neg hcnt]
                refine ⟨rfl, ⟨prev, by dsimp only; exact hprev, Or.inl rfl⟩, ?_⟩
                rw [pos_index, pos_index, if_pos hmax]
                dsimp only
                rw [if_pos rfl]
                have hvl : vis_len prev = prev.flatten.length := by
                  rw [vis_len, if_pos hexp']
                omega
            | false =>
              rw [if_neg Bool.false_ne_true]
              refine ⟨rfl, ⟨prev, by dsimp only; exact hprev, Or.inl rfl⟩, ?_⟩
              rw [pos_index, pos_index, if_pos hmax]
              dsimp only
              rw [if_pos rfl]
              have hvl : vis_len prev = 0 := by
                rw [vis_len, hexp']
                rfl
              omega
      · rw [if_neg hsc0]
        have hsc : s.selected_collection = 0 := by omega
        constructor
        · intro _
          rfl
        · intro hpos
          exfalso
          rw [pos_index, if_pos hmax, hsc, offset_until] at hpos
          omega
    · rw [if_neg hmax]
      have hlen : s.selected_item < c.flatten.length := by
        rcases hsel with h | ⟨-, h⟩
        · exact absurd h hmax
        · exact h
      by_cases hzero : s.selected_item = 0
      · rw [if_pos hzero]
        constructor
        · intro h0
          exfalso
          rw [pos_index, if_neg hmax] at h0
          omega
        · intro hpos
          refine ⟨rfl, ⟨c, by dsimp only; exact hc, Or.inl rfl⟩, ?_⟩
          rw [pos_index, pos_index, if_neg hmax]
          dsimp only
          rw [if_pos rfl, hzero]
      · rw [if_neg hzero]
        constructor
        · intro h0
          exfalso
          rw [pos_index, if_neg hmax] at h0
          omega
        · intro hpos
          refine ⟨rfl, ⟨c, by dsimp only; exact hc, ?_⟩, ?_⟩
          · right
            exact ⟨hexp, by dsimp only; omega⟩
          · rw [pos_index, pos_index, if_neg hmax]
            dsimp only
            rw [if_neg (by omega : ¬s.selected_item - 1 = USIZE_MAX)]
            omega
  | false =>
    rw [if_neg Bool.false_ne_true]
    have hmax : s.selected_item = USIZE_MAX := by
      rcases hsel with h | ⟨h, -⟩
      · exact h
      · rw [hexp] at h
        cases h
    by_cases hsc0 : 0 < s.selected_collection
    · rw [if_pos hsc0]
      cases hprev : s.collections.get? (s.selected_collection - 1) with
      | none =>
        exfalso
        have := List.get?_eq_none.mp hprev
        omega
      | some prev =>
        dsimp only
        have hprevmem := hb prev (List.get?_mem hprev)
        have hstep := offset_until_step s.collections _ _ hprev
        have harith : s.selected_collection - 1 + 1 = s.selected_collection := by
          omega
        rw [harith] at hstep
        constructor
        · intro h0
          exfalso
          rw [pos_index, if_pos hmax] at h0
          omega
        · intro hpos
          cases hexp' : prev.expanded with
          | true =>
            rw [if_pos rfl]
            by_cases hcnt : 0 < prev.flatten.length
            · rw [if_pos hcnt]
              refine ⟨rfl, ⟨prev, by dsimp only; exact hprev, ?_⟩, ?_⟩
              · right
                exact ⟨hexp', by dsimp only; omega⟩
              · rw [pos_index, pos_index, if_pos hmax]
                dsimp only
                rw [if_neg (by omega : ¬prev.flatten.length - 1 = USIZE_MAX)]
                have hvl : vis_len prev = prev.flatten.length := by
                  rw [vis_len, if_pos hexp']
                omega
            · rw [if_neg hcnt]
              refine ⟨rfl, ⟨prev, by dsimp only; exact hprev, Or.inl rfl⟩, ?_⟩
              rw [pos_index, pos_index, if_pos hmax]
              dsimp only
              rw [if_pos rfl]
              have hvl : vis_len prev = prev.flatten.length := by
                rw [vis_len, if_pos hexp']
              omega
          | false =>
            rw [if_neg Bool.false_ne_true]
            refine ⟨rfl, ⟨prev, by dsimp only; exact hprev, Or.inl rfl⟩, ?_⟩
            rw [pos_index, pos_index, if_pos hmax]
            dsimp only
            rw [if_pos rfl]
            have hvl : vis_len prev = 0 := by
              rw [vis_len, hexp']
              rfl
            omega
    · rw [if_neg hsc0]
      have hsc : s.selected_collection = 0 := by omega
      constructor
      · intro _
        rfl
      · intro hpos
        exfalso
        rw [pos_index, if_pos hmax, hsc, offset_until] at hpos
        omega

theorem usize_max_pos : 0 < USIZE_MAX := by decide

/-- When another collection follows the selected one, the total strictly
exceeds the visible lines up to and including the selected collection. -/
theorem offset_next_lt_total (s : App)
    (hnext : s.selected_collection + 1 < s.collections.length) :
    offset_until s.collections (s.selected_collection + 1) <
      total_vis s.collections := by
  cases hc2 : s.collections.get? (s.selected_collection + 1) with
  | none =>
    exfalso
    have := List.get?_eq_none.mp hc2
    omega
  | some c2 =>
    have hstep2 := offset_until_step s.collections _ _ hc2
    have hmono := offset_until_mono s.collections
      (Nat.succ_le_of_lt hnext)
    simp only [Nat.succ_eq_add_one] at hmono
    rw [total_vis]
    omega

/-- `navigate_collection_down` on a valid selection: at the last global
index (the last visible line of the last collection) it is the
identity; anywhere else it keeps the collections and moves the
selection to a valid position whose global index is exactly one
greater. -/
theorem navigate_down_spec (s : App)
    (hb : ∀ c ∈ s.collections, c.flatten.length < USIZE_MAX)
    (hv : valid_pos s) :
    (pos_index s + 1 = total_vis s.collections →
      s.navigate_collection_down = s) ∧
    (pos_index s + 1 < total_vis s.collections →
      s.navigate_collection_down.collections = s.collections ∧
      valid_pos s.navigate_collection_down ∧
      pos_index s.navigate_collection_down = pos_index s + 1) := by
  obtain ⟨c, hc, hsel⟩ := hv
  have hnil : ¬(s.collections = []) := by
    intro h
    rw [h] at hc
    simp at hc
  have hlt : s.selected_collection < s.collections.length :=
    (List.get?_eq_some.mp hc).1
  have hmaxbound := hb c (List.get?_mem hc)
  have hstep := offset_until_step s.collections _ _ hc
  have htoteq : total_vis s.collections =
      offset_until s.collections s.collections.length := rfl
  rw [App.navigate_collection_down, if_neg hnil, hc]
  dsimp only
  cases hexp : c.expanded with
  | true =>
    rw [if_pos rfl]
    by_cases hmax : s.selected_item = USIZE_MAX
    · rw [if_pos hmax]
      by_cases hcnt : 0 < c.flatten.length
      · rw [if_pos hcnt]
        have hvl : vis_len c = c.flatten.length := by
          rw [vis_len, if_pos hexp]
        have hmono := offset_until_mono s.collections
          (Nat.succ_le_of_lt hlt)
        simp only [Nat.succ_eq_add_one] at hmono
        constructor
        · intro heq
          exfalso
          rw [pos_index, if_pos hmax, htoteq] at heq
          omega
        · intro _
          refine ⟨rfl, ⟨c, by dsimp only; exact hc, ?_⟩, ?_⟩
          · right
            exact ⟨hexp, by dsimp only; omega⟩
          · rw [pos_index, pos_index, if_pos hmax]
            dsimp only
            rw [if_neg (by have := usize_max_pos; omega : ¬(0 : Nat) = USIZE_MAX)]
      · rw [if_neg hcnt]
        have hvl : vis_len c = c.flatten.length := by
          rw [vis_len, if_pos hexp]
        have hcnt0 : c.flatten.length = 0 := by omega
        by_cases hnext : s.selected_collection < s.collections.length - 1
        · rw [if_pos hnext]
          have hlt2 := offset_next_lt_total s (by omega)
          constructor
          · intro heq
            exfalso
            rw [pos_index, if_pos hmax, htoteq] at heq
            omega
          · intro _
            refine ⟨rfl, ?_, ?_⟩
            · cases hc2 : s.collections.get? (s.selected_collection + 1) with
              | none =>
                exfalso
                have := List.get?_eq_none.mp hc2
                omega
              | some c2 =>
                exact ⟨c2, by dsimp only; exact hc2, Or.inl rfl⟩
            · rw [pos_index, pos_index, if_pos hmax]
              dsimp only
              rw [if_pos rfl]
              omega
        · rw [if_neg hnext]
          have hsceq : s.selected_collection + 1 = s.collections.length := by
            omega
          rw [hsceq] at hstep
          constructor
          · intro _
            rfl
          · intro hlt'
            exfalso
            rw [pos_index, if_pos hmax, htoteq] at hlt'
            omega
    · rw [if_neg hmax]
      have hlen : s.selected_item < c.flatten.length := by
        rcases hsel with h | ⟨-, h⟩
        · exact absurd h hmax
        · exact h
      have hvl : vis_len c = c.flatten.length := by
        rw [vis_len, if_pos hexp]
      by_cases hstepup : s.selected_item < c.flatten.length - 1
      · rw [if_pos hstepup]
        have hmono := offset_until_mono s.collections
          (Nat.succ_le_of_lt hlt)
        simp only [Nat.succ_eq_add_one] at hmono
        constructor
        · intro heq
          exfalso
          rw [pos_index, if_neg hmax, htoteq] at heq
          omega
        · intro _
          refine ⟨rfl, ⟨c, by dsimp only; exact hc, ?_⟩, ?_⟩
          · right
            exact ⟨hexp, by dsimp only; omega⟩
          · rw [pos_index, pos_index, if_neg hmax]
            dsimp only
            rw [if_neg (by omega : ¬s.selected_item + 1 = USIZE_MAX)]
            omega
      · rw [if_neg hstepup]
        have hseleq : s.selected_item = c.flatten.length - 1 := by omega
        by_cases hnext : s.selected_collection < s.collections.length - 1
        · rw [if_pos hnext]
          have hlt2 := offset_next_lt_total s (by omega)
          constructor
          · intro heq
            exfalso
            rw [pos_index, if_neg hmax, htoteq] at heq
            omega
          · intro _
            refine ⟨rfl, ?_, ?_⟩
            · cases hc2 : s.collections.get? (s.selected_collection + 1) with
              | none =>
                exfalso
                have := List.get?_eq_none.mp hc2
                omega
              | some c2 =>
                exact ⟨c2, by dsimp only; exact hc2, Or.inl rfl⟩
            · rw [pos_index, pos_index, if_neg hmax]
              dsimp only
              rw [if_pos rfl]
              omega
        · rw [if_neg hnext]
          have hsceq : s.selected_collection + 1 = s.collections.length := by
            omega
          rw [hsceq] at hstep
          constructor
          · intro _
            rfl
          · intro hlt'
            exfalso
            rw [pos_index, if_neg hmax, htoteq] at hlt'
            omega
  | false =>
    rw [if_neg Bool.false_ne_true]
    have hmax : s.selected_item = USIZE_MAX := by
      rcases hsel with h | ⟨h, -⟩
      · exact h
      · rw [hexp] at h
        cases h
    have hvl : vis_len c = 0 := by
      rw [vis_len, hexp]
      rfl
    by_cases hnext : s.selected_collection < s.collections.length - 1
    · rw [if_pos hnext]
      have hlt2 := offset_next_lt_total s (by omega)
      constructor
      · intro heq
        exfalso
        rw [pos_index, if_pos hmax, htoteq] at heq
        omega
      · intro _
        refine ⟨rfl, ?_, ?_⟩
        · cases hc2 : s.collections.get? (s.selected_collection + 1) with
          | none =>
            exfalso
            have := List.get?_eq_none.mp hc2
            omega
          | some c2 =>
            exact ⟨c2, by dsimp only; exact hc2, Or.inl rfl⟩
        · rw [pos_index, pos_index, if_pos hmax]
          dsimp only
          rw [if_pos rfl]
          omega
    · rw [if_neg hnext]
      have hsceq : s.selected_collection + 1 = s.collections.length := by
        omega
      rw [hsceq] at hstep
      constructor
      · intro _
        rfl
      · intro hlt'
        exfalso
        rw [pos_index, if_pos hmax, htoteq] at hlt'
        omega

/-- C9.  Navigation never wraps past the ends: on a valid selection,
`navigate_collection_up` is the identity exactly at global index `0`
(the first collection's header) and otherwise moves to the valid
position at the previous index; `navigate_collection_down` is the
identity exactly at the last global index (the last visible position of
the last collection) and otherwise moves to the valid position at the
next index; the global index determines the position uniquely, so each
call moves exactly one step through the flattened, visibility-pruned
sequence — one collection's last visible line is immediately followed
by the next collection's header. -/
theorem C9_navigation_no_wrap (s : App)
    (hb : ∀ c ∈ s.collections, c.flatten.length < USIZE_MAX)
    (hv : valid_pos s) :
    (pos_index s = 0 → s.navigate_collection_up = s) ∧
    (0 < pos_index s →
      s.navigate_collection_up.collections = s.collections ∧
      valid_pos s.navigate_collection_up ∧
      pos_index s.navigate_collection_up + 1 = pos_index s) ∧
    (pos_index s + 1 = total_vis s.collections →
      s.navigate_collection_down = s) ∧
    (pos_index s + 1 < total_vis s.collections →
      s.navigate_collection_down.collections = s.collections ∧
      valid_pos s.navigate_collection_down ∧
      pos_index s.navigate_collection_down = pos_index s + 1) ∧
    (∀ t1 t2 : App, t1.collections = s.collections →
      t2.collections = s.collections → valid_pos t1 → valid_pos t2 →
      pos_index t1 = pos_index t2 →
      t1.selected_collection = t2.selected_collection ∧
        t1.selected_item = t2.selected_item) := by
  obtain ⟨h1, h2⟩ := navigate_up_spec s hb hv
  obtain ⟨h3, h4⟩ := navigate_down_spec s hb hv
  refine ⟨h1, h2, h3, h4, ?_⟩
  intro t1 t2 ht1 ht2 hv1 hv2 hpos
  refine pos_index_injective t1 t2 (ht1.trans ht2.symm) ?_ hv1 hv2 hpos
  rw [ht1]
  exact hb

/-- A two-collection state with the first collection's header selected,
used by the C9 witness. -/
def sampleNavApp : App :=
  { collections := [sampleColA, sampleColB], selected_collection := 0,
    selected_item := USIZE_MAX, pending_move := none, status_message := none,
    error_message := none, saved_writes := [] }

/-- Closed witness for C9: moving down from the first header lands on
the valid position of global index `1`. -/
theorem C9_navigation_no_wrap_witness :
    sampleNavApp.navigate_collection_down.collections =
        sampleNavApp.collections ∧
    valid_pos sampleNavApp.navigate_collection_down ∧
    pos_index sampleNavApp.navigate_collection_down =
      pos_index sampleNavApp + 1 :=
  (C9_navigation_no_wrap sampleNavApp (by decide)
    ⟨sampleColA, by decide, Or.inl rfl⟩).2.2.2.1 (by decide)

/-! ## C8: persistence round trip

`Collection::save` writes `serde_json::to_string_pretty(self)` to a
file and `Collection::load` parses the file back, then sets
`expanded = true` and `source_path = Some(path)`.  File I/O and the
text rendering of the JSON document are external; the document itself
is embedded as a `Json` tree, and the serde `Serialize`/`Deserialize`
derives are embedded following the serde attributes in the source and
the persisted shape documented as the external contract:
`#[serde(skip)]` on `Collection.expanded`/`source_path` (absent from
the document, reset to the field type's `Default` on deserialize:
`false` and `None`), `#[serde(tag = "type", rename_all =
"snake_case")]` on `CollectionItem`, and `UPPERCASE` names for
`HttpMethod`. -/

/-- A JSON document: strings, booleans, arrays and objects cover every
shape the collection contract uses. -/
inductive Json where
  | str (s : String)
  | bool (b : Bool)
  | arr (xs : List Json)
  | obj (fields : List (String × Json))

/-- First value bound to key `k` in an object's field list. -/
def getField (fields : List (String × Json)) (k : String) : Option Json :=
  match fields with
  | [] => none
  | (k', v) :: rest => if k' = k then some v else getField rest k

/-- Extract a JSON string. -/
def asStr : Option Json → Option String
  | some (.str s) => some s
  | _ => none

/-- Extract a JSON boolean. -/
def asBool : Option Json → Option Bool
  | some (.bool b) => some b
  | _ => none

/-- Serialization of `HttpMethod` (`rename_all = "UPPERCASE"`). -/
def encodeMethod : HttpMethod → Json
  | .get => .str "GET"
  | .post => .str "POST"
  | .put => .str "PUT"
  | .patch => .str "PATCH"
  | .delete => .str "DELETE"

/-- Deserialization of `HttpMethod`. -/
def decodeMethod : Option Json → Option HttpMethod
  | some (.str "GET") => some .get
  | some (.str "POST") => some .post
  | some (.str "PUT") => some .put
  | some (.str "PATCH") => some .patch
  | some (.str "DELETE") => some .delete
  | _ => none

/-- Serialization of `AuthType` (`rename_all = "snake_case"`). -/
def encodeAuthType : AuthType → Json
  | .none => .str "none"
  | .bearer => .str "bearer"
  | .basic => .str "basic"
  | .apiKey => .str "api_key"

/-- Deserialization of `AuthType`. -/
def decodeAuthType : Option Json → Option AuthType
  | some (.str "none") => some .none
  | some (.str "bearer") => some .bearer
  | some (.str "basic") => some .basic
  | some (.str "api_key") => some .apiKey
  | _ => none

/-- Serialization of `KeyValue`. -/
def encodeKeyValue (kv : KeyValue) : Json :=
  .obj [("key", .str kv.key), ("value", .str kv.value),
    ("enabled", .bool kv.enabled)]

/-- Deserialization of `KeyValue`. -/
def decodeKeyValue : Json → Option KeyValue
  | .obj fields =>
    match asStr (getField fields "key"), asStr (getField fields "value"),
        asBool (getField fields "enabled") with
    | some k, some v, some e => some { key := k, value := v, enabled := e }
    | _, _, _ => none
  | _ => none

/-- Serialization of a list of `KeyValue`. -/
def encodeKeyValues (l : List KeyValue) : List Json :=
  match l with
  | [] => []
  | kv :: rest => encodeKeyValue kv :: encodeKeyValues rest

/-- Deserialization of a list of `KeyValue`. -/
def decodeKeyValues : List Json → Option (List KeyValue)
  | [] => some []
  | j :: rest =>
    match decodeKeyValue j, decodeKeyValues rest with
    | some kv, some l => some (kv :: l)
    | _, _ => none

/-- Extract a JSON array and deserialize it as `KeyValue`s. -/
def asKeyValues : Option Json → Option (List KeyValue)
  | some (.arr xs) => decodeKeyValues xs
  | _ => none

/-- Serialization of `AuthConfig`. -/
def encodeAuthConfig (a : AuthConfig) : Json :=
  .obj [("auth_type", encodeAuthType a.auth_type),
    ("bearer_token", .str a.bearer_token),
    ("basic_username", .str a.basic_username),
    ("basic_password", .str a.basic_password),
    ("api_key_name", .str a.api_key_name),
    ("api_key_value", .str a.api_key_value),
    ("api_key_location", .str a.api_key_location)]

/-- Deserialization of `AuthConfig`. -/
def decodeAuthConfig : Option Json → Option AuthConfig
  | some (.obj fields) =>
    match decodeAuthType (getField fields "auth_type"),
        asStr (getField fields "bearer_token"),
        asStr (getField fields "basic_username"),
        asStr (getField fields "basic_password"),
        asStr (getField fields "api_key_name"),
        asStr (getField fields "api_key_value"),
        asStr (getField fields "api_key_location") with
    | some t, some bt, some bu, some bp, some kn, some kv, some kl =>
      some { auth_type := t,
             bearer_token := bt,
             basic_username := bu,
             basic_password := bp,
             api_key_name := kn,
             api_key_value := kv,
             api_key_location := kl }
    | _, _, _, _, _, _, _ => none
  | _ => none

/-- The request fields as object fields (shared by the bare request and
the tagged item form). -/
def requestFields (r : ApiRequest) : List (String × Json) :=
  [("id", .str r.id), ("name", .str r.name), ("method", encodeMethod r.method),
    ("url", .str r.url), ("headers", .arr (encodeKeyValues r.headers)),
    ("query_params", .arr (encodeKeyValues r.query_params)),
    ("body", .str r.body), ("auth", encodeAuthConfig r.auth)]

/-- Deserialization of an `ApiRequest` from an object's field list. -/
def decodeRequestFields (fields : List (String × Json)) :
    Option ApiRequest :=
  match asStr (getField fields "id"), asStr (getField fields "name"),
      decodeMethod (getField fields "method"), asStr (getField fields "url"),
      asKeyValues (getField fields "headers"),
      asKeyValues (getField fields "query_params"),
      asStr (getField fields "body"),
      decodeAuthConfig (getField fields "auth") with
  | some id, some name, some m, some url, some hs, some qs, some b, some a =>
    some { id := id,
           name := name,
           method := m,
           url := url,
           headers := hs,
           query_params := qs,
           body := b,
           auth := a }
  | _, _, _, _, _, _, _, _ => none

mutual

/-- Serialization of a `CollectionItem` per the tagged-enum contract:
`{"type": "request", ...request fields...}` or
`{"type": "folder", "id", "name", "items": [...], "expanded"}`. -/
def encodeItem : CollectionItem → Json
  | .request r => .obj (("type", .str "request") :: requestFields r)
  | .folder id name items expanded =>
    .obj [("type", .str "folder"), ("id", .str id), ("name", .str name),
      ("items", .arr (encodeItems items)), ("expanded", .bool expanded)]

/-- Serialization of an item list. -/
def encodeItems : List CollectionItem → List Json
  | [] => []
  | it :: rest => encodeItem it :: encodeItems rest

end

/-- A field value is smaller than the field list holding it (used for
the termination of `decodeItem`). -/
theorem sizeOf_of_getField :
    ∀ (fields : List (String × Json)) (k : String) (v : Json),
      getField fields k = some v → sizeOf v < sizeOf fields := by
  intro fields k v h
  induction fields with
  | nil => simp [getField] at h
  | cons f rest ih =>
    obtain ⟨k', v'⟩ := f
    rw [getField] at h
    by_cases hk : k' = k
    · rw [if_pos hk] at h
      simp only [Option.some.injEq] at h
      subst h
      simp only [List.cons.sizeOf_spec, Prod.mk.sizeOf_spec]
      omega
    · rw [if_neg hk] at h
      have := ih h
      simp only [List.cons.sizeOf_spec]
      omega

mutual

/-- Deserialization of a `CollectionItem`, dispatching on the `type`
tag. -/
def decodeItem : Json → Option CollectionItem
  | .obj fields =>
    match asStr (getField fields "type") with
    | some "request" => (decodeRequestFields fields).map CollectionItem.request
    | some "folder" =>
      match asStr (getField fields "id"), asStr (getField fields "name"),
          asBool (getField fields "expanded") with
      | some id, some name, some e =>
        match hit : getField fields "items" with
        | some (.arr xs) =>
          match decodeItems xs with
          | some items => some (.folder id name items e)
          | none => none
        | _ => none
      | _, _, _ => none
    | _ => none
  | _ => none
termination_by j => sizeOf j
decreasing_by
  · have h1 := sizeOf_of_getField fields "items" _ hit
    simp only [Json.arr.sizeOf_spec] at h1
    simp only [Json.obj.sizeOf_spec]
    omega

/-- Deserialization of an item list. -/
def decodeItems : List Json → Option (List CollectionItem)
  | [] => some []
  | j :: rest =>
    match decodeItem j, decodeItems rest with
    | some it, some l => some (it :: l)
    | _, _ => none
termination_by xs => sizeOf xs
decreasing_by
  · simp only [List.cons.sizeOf_spec]
    omega
  · simp only [List.cons.sizeOf_spec]
    omega

end

/-- The document `Collection::save` writes: only `id`, `name` and
`items` are serialized, because `expanded` and `source_path` carry
`#[serde(skip)]`. -/
def Collection.to_json (c : Collection) : Json :=
  .obj [("id", .str c.id), ("name", .str c.name),
    ("items", .arr (encodeItems c.items))]

/-- `Collection::load` applied to a parsed document: deserialization
gives the skipped fields their `Default` values (`false`, `None`), then
the source force-sets `expanded = true` and `source_path = Some(path)`. -/
def Collection.load_json (path : String) (j : Json) : Option Collection :=
  match j with
  | .obj fields =>
    match asStr (getField fields "id"), asStr (getField fields "name"),
        getField fields "items" with
    | some id, some name, some (.arr xs) =>
      match decodeItems xs with
      | some items =>
        some { id := id,
               name := name,
               items := items,
               expanded := true,
               source_path := some path }
      | none => none
    | _, _, _ => none
  | _ => none

theorem decode_encode_method (m : HttpMethod) :
    decodeMethod (some (encodeMethod m)) = some m := by
  cases m <;> rfl

theorem decode_encode_authType (t : AuthType) :
    decodeAuthType (some (encodeAuthType t)) = some t := by
  cases t <;> rfl

theorem decode_encode_kv (kv : KeyValue) :
    decodeKeyValue (encodeKeyValue kv) = some kv := by
  simp [decodeKeyValue, encodeKeyValue, getField, asStr, asBool]

theorem decode_encode_kvs (l : List KeyValue) :
    decodeKeyValues (encodeKeyValues l) = some l := by
  induction l with
  | nil => rfl
  | cons kv rest ih =>
    rw [encodeKeyValues, decodeKeyValues, decode_encode_kv, ih]

theorem decode_encode_auth (a : AuthConfig) :
    decodeAuthConfig (some (encodeAuthConfig a)) = some a := by
  simp [decodeAuthConfig, encodeAuthConfig, getField, asStr,
    decode_encode_authType]

theorem decode_tagged_request_fields (r : ApiRequest) (v : Json) :
    decodeRequestFields (("type", v) :: requestFields r) = some r := by
  simp [decodeRequestFields, requestFields, getField, asStr, asKeyValues,
    decode_encode_method, decode_encode_kvs, decode_encode_auth]

mutual

/-- Serialization then deserialization of one item is the identity —
the folder `expanded` flag included, since it is persisted. -/
theorem decode_encode_item :
    ∀ it : CollectionItem, decodeItem (encodeItem it) = some it
  | .request r => by
    rw [encodeItem, decodeItem]
    simp [getField, asStr, decode_tagged_request_fields]
  | .folder id name items e => by
    rw [encodeItem, decodeItem]
    simp [getField, asStr, asBool, decode_encode_items items]

/-- Serialization then deserialization of an item list is the
identity. -/
theorem decode_encode_items :
    ∀ l : List CollectionItem, decodeItems (encodeItems l) = some l
  | [] => by rw [encodeItems, decodeItems]
  | it :: rest => by
    rw [encodeItems, decodeItems, decode_encode_item it,
      decode_encode_items rest]

end

/-- C8.  Persistence round trip: saving a collection and loading the
written document back succeeds and yields a collection with the same
`id`, `name` and `items` — every folder's persisted `expanded` flag
included — while the loaded collection's own transient `expanded` flag
is reset to `true` and its `source_path` is set to the loading path,
whatever the original transient values were. -/
theorem C8_persistence_round_trip (c : Collection) (p : String) :
    Collection.load_json p (Collection.to_json c) =
      some { id := c.id, name := c.name, items := c.items, expanded := true,
             source_path := some p } := by
  rw [Collection.to_json, Collection.load_json]
  simp [getField, asStr, decode_encode_items]

end Restui
